import Mathlib

/-!
gomp3: a verification development of `main.go`

The service accepts a video URL by HTTP POST, derives an identifier from it
(`getVideoID`), answers from the hosting directory when `<id>.mp3` is already
there (`fileAlreadyExists`), otherwise runs the external downloader, and then
runs one eviction pass (`getTotalSize`, `getOldestMP3File`, `os.Remove`).

Modelling decisions.

* A Go `string` is a sequence of bytes: `GoString := List Nat`. `str` gives the
  UTF-8 bytes of a literal.
* The two regular expressions of `main.go` are embedded as the matchers they
  denote (anchored literal parts, one character class repeated to the end).
* `net/url` (`url.Parse`, `URL.Query`, `Values.Get`) is embedded function by
  function from the Go standard library, in its behaviour as of Go 1.26: `;` is
  not a separator of the query, a query of more than 10000 parameters is
  refused, a port starts at the first colon of the host, and a host in square
  brackets has to be an IPv6 address (`netip.ParseAddr`).
* A path is kept in the normal form that `filepath.Clean` computes
  (`CleanPath`). The file system is a list of entries, one per path, in the
  order in which `filepath.Walk` visits them; a new file is put at its place.
* Every call of `main.go` that can fail gets its outcome from the environment
  of the request (`Env`): the body read, `os.Stat`, the downloader, the two
  directory walks, `os.Remove`, and the `os.Stat` of `getFileModTime`, whose
  error the code drops before it dereferences the result: that one is a panic.
* `sort.Slice` is a parameter of the handler. Go documents it as a sort that is
  not stable; theorems that depend on the order assume only its contract
  (`SortSliceContract`). `insertionSortLess` embeds the insertion sort that Go
  runs on slices of at most 12 elements and is used for concrete runs.
-/

namespace Gomp3

/-! ## Strings -/

/-- A Go string: a sequence of bytes. -/
abbrev GoString := List Nat

/-- UTF-8 encoding of one code point. -/
def utf8Bytes (c : Nat) : List Nat :=
  if c < 0x80 then [c]
  else if c < 0x800 then [0xC0 + c / 0x40, 0x80 + c % 0x40]
  else if c < 0x10000 then [0xE0 + c / 0x1000, 0x80 + c / 0x40 % 0x40, 0x80 + c % 0x40]
  else [0xF0 + c / 0x40000, 0x80 + c / 0x1000 % 0x40, 0x80 + c / 0x40 % 0x40, 0x80 + c % 0x40]

/-- The bytes of a string literal. -/
def str (s : String) : GoString := s.toList.flatMap (fun c => utf8Bytes c.toNat)

/-- The function `strings.HasPrefix`. -/
def hasPre (s p : GoString) : Bool := p.isPrefixOf s

/-- The function `strings.HasSuffix`. -/
def hasSuf (s p : GoString) : Bool := p.reverse.isPrefixOf s.reverse

/-- The function `strings.Cut` for a one-byte separator: the text before the
first separator, the text after it, and whether the separator occurs. -/
def cutByte (sep : Nat) : GoString → GoString × GoString × Bool
  | [] => ([], [], false)
  | c :: cs =>
    if c = sep then ([], cs, true)
    else (c :: (cutByte sep cs).1, (cutByte sep cs).2.1, (cutByte sep cs).2.2)

/-- The function `strings.Index` (none for -1). -/
def indexSub (pat : GoString) : GoString → Option Nat
  | [] => if pat = [] then some 0 else none
  | c :: cs =>
    if pat.isPrefixOf (c :: cs) then some 0 else (indexSub pat cs).map (· + 1)

/-- The function `strings.LastIndex` for a one-byte pattern (none for -1). -/
def lastIndexByte (b : Nat) : GoString → Option Nat
  | [] => none
  | c :: cs =>
    match lastIndexByte b cs with
    | some i => some (i + 1)
    | none => if c = b then some 0 else none

/-- The function `strings.Split` for a one-byte separator and a non-empty text
(used for the `strings.Cut` loop of `parseQuery`). -/
def splitByte (sep : Nat) : GoString → List GoString
  | [] => [[]]
  | c :: cs =>
    if c = sep then [] :: splitByte sep cs
    else
      match splitByte sep cs with
      | [] => [[c]]
      | seg :: segs => (c :: seg) :: segs

def isLower (c : Nat) : Bool := 97 ≤ c && c ≤ 122
def isUpper (c : Nat) : Bool := 65 ≤ c && c ≤ 90
def isDigit (c : Nat) : Bool := 48 ≤ c && c ≤ 57

/-- The function `strings.ToLower` on ASCII letters (the scheme holds only
ASCII letters, digits, `+`, `-` and `.`). -/
def toLower (s : GoString) : GoString := s.map (fun c => if isUpper c then c + 32 else c)

/-! ## The regular expressions of `main.go` -/

/-- A character class given by its ranges, as in `[a-zA-Z0-9_-]`. -/
def inClass (ranges : List (Nat × Nat)) (b : Nat) : Bool :=
  ranges.any (fun r => r.1 ≤ b && b ≤ r.2)

/-- The class `[a-zA-Z0-9_-]` of `urlPattern`. -/
def idClass : List (Nat × Nat) := [(97, 122), (65, 90), (48, 57), (95, 95), (45, 45)]

/-- The function `isValidURL`: `^(http|https)://[^ "]+$`. A negated class
matches every rune but those listed, so on bytes: every byte but 0x20 and 0x22. -/
def isValidURL (url : GoString) : Bool :=
  let tail (r : GoString) : Bool := r ≠ [] && r.all (fun b => b ≠ 32 && b ≠ 34)
  (hasPre url (str "http://") && tail (url.drop 7)) ||
  (hasPre url (str "https://") && tail (url.drop 8))

/-- The call `urlPattern.FindStringSubmatch(inputURL)` for
`^https://youtu\.be/([a-zA-Z0-9_-]+)$`: nil when there is no match, else the
whole match and the group. -/
def urlPatternFindStringSubmatch (inputURL : GoString) : List GoString :=
  let lit := str "https://youtu.be/"
  let g := inputURL.drop lit.length
  if hasPre inputURL lit && g ≠ [] && g.all (inClass idClass) then [inputURL, g] else []

/-! ## `net/url` -/

/-- The escaping modes of `net/url`. -/
inductive Encoding
  | encodePath | encodePathSegment | encodeHost | encodeZone
  | encodeUserPassword | encodeQueryComponent | encodeFragment
deriving DecidableEq, Repr

open Encoding

def ishex (c : Nat) : Bool := isDigit c || (97 ≤ c && c ≤ 102) || (65 ≤ c && c ≤ 70)

def unhex (c : Nat) : Nat :=
  if isDigit c then c - 48
  else if 97 ≤ c && c ≤ 102 then c - 97 + 10
  else if 65 ≤ c && c ≤ 70 then c - 65 + 10
  else 0

/-- The function `shouldEscape` of `net/url`. -/
def shouldEscape (c : Nat) (mode : Encoding) : Bool :=
  if isLower c || isUpper c || isDigit c then false
  else if (mode = encodeHost || mode = encodeZone) &&
      [33, 36, 38, 39, 40, 41, 42, 43, 44, 59, 61, 58, 91, 93, 60, 62, 34].contains c then false
  else if [45, 95, 46, 126].contains c then false
  else if [36, 38, 43, 44, 47, 58, 59, 61, 63, 64].contains c &&
      (mode = encodePath || mode = encodePathSegment || mode = encodeUserPassword ||
        mode = encodeQueryComponent || mode = encodeFragment) then
    match mode with
    | encodePath => c = 63
    | encodePathSegment => c = 47 || c = 59 || c = 44 || c = 63
    | encodeUserPassword => c = 64 || c = 47 || c = 63 || c = 58
    | encodeQueryComponent => true
    | _ => false
  else if mode = encodeFragment && [33, 40, 41, 42].contains c then false
  else true

/-- The first loop of `unescape`: are the `%` escapes well formed and the
bytes allowed in this mode. -/
def unescapeCheck (mode : Encoding) : GoString → Bool
  | [] => true
  | 37 :: a :: b :: rest =>
    if !(ishex a && ishex b) then false
    else if mode = encodeHost && unhex a < 8 && [37, a, b] ≠ [37, 50, 53] then false
    else if mode = encodeZone && [37, a, b] ≠ [37, 50, 53] && unhex a * 16 + unhex b ≠ 32 &&
        shouldEscape (unhex a * 16 + unhex b) encodeHost then false
    else unescapeCheck mode rest
  | c :: rest =>
    if c = 37 then false
    else if c = 43 then unescapeCheck mode rest
    else if (mode = encodeHost || mode = encodeZone) && c < 0x80 && shouldEscape c encodeHost then
      false
    else unescapeCheck mode rest

/-- The second loop of `unescape`: decode. -/
def unescapeDecode (mode : Encoding) : GoString → GoString
  | [] => []
  | 37 :: a :: b :: rest => (unhex a * 16 + unhex b) :: unescapeDecode mode rest
  | c :: rest =>
    if c = 43 then (if mode = encodeQueryComponent then 32 else 43) :: unescapeDecode mode rest
    else c :: unescapeDecode mode rest

/-- The function `unescape` of `net/url` (none for an error). -/
def unescape (s : GoString) (mode : Encoding) : Option GoString :=
  if unescapeCheck mode s then some (unescapeDecode mode s) else none

/-- The function `url.QueryUnescape`. -/
def QueryUnescape (s : GoString) : Option GoString := unescape s encodeQueryComponent

/-- The function `stringContainsCTLByte`. -/
def stringContainsCTLByte (s : GoString) : Bool := s.any (fun b => b < 32 || b = 127)

/-- The loop of `getScheme`, at index `i` with `rest` still to read. -/
def getSchemeLoop (rawURL : GoString) (i : Nat) : GoString → Option (GoString × GoString)
  | [] => some ([], rawURL)
  | c :: cs =>
    if isLower c || isUpper c then getSchemeLoop rawURL (i + 1) cs
    else if isDigit c || c = 43 || c = 45 || c = 46 then
      if i = 0 then some ([], rawURL) else getSchemeLoop rawURL (i + 1) cs
    else if c = 58 then
      if i = 0 then none else some (rawURL.take i, cs)
    else some ([], rawURL)

/-- The function `getScheme`: the scheme and the rest, none for the error
"missing protocol scheme". -/
def getScheme (rawURL : GoString) : Option (GoString × GoString) :=
  getSchemeLoop rawURL 0 rawURL

/-- The function `validOptionalPort`. -/
def validOptionalPort (port : GoString) : Bool :=
  match port with
  | [] => true
  | c :: ds => c = 58 && ds.all isDigit

/-- The function `validUserinfo`. -/
def validUserinfo (s : GoString) : Bool :=
  s.all (fun r => isUpper r || isLower r || isDigit r ||
    [45, 46, 95, 58, 126, 33, 36, 38, 39, 40, 41, 42, 43, 44, 59, 61, 37, 64].contains r)

/-- The function `strings.IndexByte` (none for -1). -/
def indexByte (b : Nat) (s : GoString) : Option Nat :=
  if (cutByte b s).2.2 then some (cutByte b s).1.length else none

/-- The function `parseIPv4Fields` of `net/netip` on the whole of `s`: four
decimal fields separated by dots, none empty, none above 255, none with a
leading zero. -/
def parseIPv4Fields (s : GoString) : Bool :=
  (splitByte 46 s).length = 4 &&
  (splitByte 46 s).all (fun f =>
    f ≠ [] && f.all isDigit && (f.length = 1 || f.head? ≠ some 48) &&
    f.foldl (fun v c => v * 10 + (c - 48)) 0 ≤ 255)

/-- The end of `parseIPv6`: the text is used up, and the `::` stands for at
least one field exactly when fewer than 16 bytes were filled. -/
def finishIPv6 (i : Nat) (ellipsis : Bool) (s : GoString) : Bool :=
  s = [] && (if i < 16 then ellipsis else !ellipsis)

/-- The loop `for i < 16` of `parseIPv6`, which fills two bytes in each turn:
`n` turns are left, `i` bytes are filled, `ellipsis` says whether a `::` was
seen, `s` is the text still to read. -/
def parseIPv6Loop : Nat → Nat → Bool → GoString → Bool
  | 0, i, ellipsis, s => finishIPv6 i ellipsis s
  | n + 1, i, ellipsis, s =>
    if (s.takeWhile ishex).length > 4 then false
    else if s.takeWhile ishex = [] then false
    else if hasPre (s.dropWhile ishex) [46] then
      if !ellipsis && i ≠ 12 then false
      else if i + 4 > 16 then false
      else parseIPv4Fields s && finishIPv6 (i + 4) ellipsis []
    else
      match s.dropWhile ishex with
      | [] => finishIPv6 (i + 2) ellipsis []
      | [58] => false
      | 58 :: 58 :: rest =>
        if ellipsis then false
        else if rest = [] then finishIPv6 (i + 2) true []
        else parseIPv6Loop n (i + 2) true rest
      | 58 :: rest => parseIPv6Loop n (i + 2) ellipsis rest
      | _ => false

/-- The function `parseIPv6` of `net/netip`: whether the text is an IPv6
address, with a zone after `%` or without. -/
def parseIPv6 (input : GoString) : Bool :=
  if (cutByte 37 input).2.2 && (cutByte 37 input).2.1 = [] then false
  else if hasPre (cutByte 37 input).1 [58, 58] then
    (if (cutByte 37 input).1.drop 2 = [] then true
     else parseIPv6Loop 8 0 true ((cutByte 37 input).1.drop 2))
  else parseIPv6Loop 8 0 false (cutByte 37 input).1

/-- Whether `netip.ParseAddr(s)` succeeds with an address that is not `Is4`:
the first of `.`, `:` and `%` in the text decides how it is parsed, and only
the IPv6 form gives such an address. -/
def parseAddrIs6 (s : GoString) : Bool :=
  match s.find? (fun c => c = 46 || c = 58 || c = 37) with
  | some 58 => parseIPv6 s
  | _ => false

/-- The function `parseHost` (none for an error). A host with `[` is an IP
literal: what follows the last `]` has to be a port (so that the `]` comes
after the last `[`), and the text between the two an IPv6 address. In another
host the port starts at the first colon. -/
def parseHost (host : GoString) : Option GoString :=
  match lastIndexByte 91 host with
  | some openBracketIdx =>
    match lastIndexByte 93 host with
    | none => none
    | some closeBracketIdx =>
      if !validOptionalPort (host.drop (closeBracketIdx + 1)) then none
      else
        let hostname := (host.take closeBracketIdx).drop (openBracketIdx + 1)
        let unescapedHostname : Option GoString :=
          match indexSub (str "%25") hostname with
          | some zoneIdx =>
            match unescape (hostname.take zoneIdx) encodeHost,
                unescape (hostname.drop zoneIdx) encodeZone with
            | some hostPart, some zonePart => some (hostPart ++ zonePart)
            | _, _ => none
          | none => unescape hostname encodeHost
        match unescape (host.drop (closeBracketIdx + 1)) encodeHost, unescapedHostname with
        | some unescapedColonPort, some h =>
          if parseAddrIs6 h then some ([91] ++ h ++ [93] ++ unescapedColonPort) else none
        | _, _ => none
  | none =>
    match indexByte 58 host with
    | some i =>
      if !validOptionalPort (host.drop i) then none else unescape host encodeHost
    | none => unescape host encodeHost

/-- The function `parseAuthority`, reduced to the host (none for an error);
the user information is checked and dropped. -/
def parseAuthority (authority : GoString) : Option GoString :=
  match lastIndexByte 64 authority with
  | none => parseHost authority
  | some i =>
    match parseHost (authority.drop (i + 1)) with
    | none => none
    | some host =>
      let userinfo := authority.take i
      if !validUserinfo userinfo then none
      else if !userinfo.contains 58 then
        (unescape userinfo encodeUserPassword).map (fun _ => host)
      else
        match unescape (cutByte 58 userinfo).1 encodeUserPassword,
            unescape (cutByte 58 userinfo).2.1 encodeUserPassword with
        | some _, some _ => some host
        | _, _ => none

/-- The fields of `url.URL` that `Parse` fills, without the user. -/
structure URL where
  Scheme : GoString := []
  Opaque : GoString := []
  Host : GoString := []
  Path : GoString := []
  ForceQuery : Bool := false
  RawQuery : GoString := []
  Fragment : GoString := []
deriving DecidableEq, Repr

/-- The part of `parse` after the scheme and the query are split off: the
authority and the path of `rest`. -/
def parseRest (scheme rest : GoString) : Option URL :=
  if !hasPre rest (str "/") && scheme ≠ [] then
    some { Scheme := scheme, Opaque := rest }
  else if !hasPre rest (str "/") && (cutByte 47 rest).1.contains 58 then none
  else
    let hasAuthority :=
      (scheme ≠ [] || !hasPre rest (str "///")) && hasPre rest (str "//")
    let authority := if hasAuthority then (cutByte 47 (rest.drop 2)).1 else []
    let rest1 := if hasAuthority then (rest.drop 2).drop authority.length else rest
    match (if hasAuthority then parseAuthority authority else some []) with
    | none => none
    | some host =>
      match unescape rest1 encodePath with
      | none => none
      | some path => some { Scheme := scheme, Host := host, Path := path }

/-- The function `parse` of `net/url` with `viaRequest = false`. -/
def parse (rawURL : GoString) : Option URL :=
  if stringContainsCTLByte rawURL then none
  else if rawURL = str "*" then some { Path := str "*" }
  else
    match getScheme rawURL with
    | none => none
    | some (scheme, rest0) =>
      let force := hasSuf rest0 (str "?") && rest0.count 63 = 1
      let rest := if force then rest0.dropLast else (cutByte 63 rest0).1
      let rawQuery := if force then [] else (cutByte 63 rest0).2.1
      (parseRest (toLower scheme) rest).map
        (fun url => { url with ForceQuery := force, RawQuery := rawQuery })

/-- The function `url.Parse` (none for an error). -/
def Parse (rawURL : GoString) : Option URL :=
  match parse (cutByte 35 rawURL).1 with
  | none => none
  | some url =>
    if (cutByte 35 rawURL).2.1 = [] then some url
    else
      match unescape (cutByte 35 rawURL).2.1 encodeFragment with
      | none => none
      | some frag => some { url with Fragment := frag }

/-- One turn of the loop of `parseQuery` on the segment `key`: the pair it
appends, or none when the segment is skipped. -/
def parseQueryPair (key : GoString) : Option (GoString × GoString) :=
  if key.contains 59 then none
  else if key = [] then none
  else
    match QueryUnescape (cutByte 61 key).1, QueryUnescape (cutByte 61 key).2.1 with
    | some k, some v => some (k, v)
    | _, _ => none

/-- The functions `url.ParseQuery` and `URL.Query`: the pairs in the order in
which they are appended (the error is dropped by `Query`). A query of more
than 10000 parameters, counted as one more than its `&`, is refused before
any pair is read. -/
def parseQuery (query : GoString) : List (GoString × GoString) :=
  if query.count 38 + 1 > 10000 then []
  else if query = [] then []
  else (splitByte 38 query).filterMap parseQueryPair

/-- The method `Values.Get`: the first value of the key, or the empty string. -/
def Values_Get (m : List (GoString × GoString)) (key : GoString) : GoString :=
  match m.find? (fun kv => kv.1 = key) with
  | some kv => kv.2
  | none => []

/-! ## `getVideoID` -/

/-- The function `getVideoID` of `main.go`. -/
def getVideoID (inputURL : GoString) : GoString :=
  let m := urlPatternFindStringSubmatch inputURL
  if m.length > 1 then m.getD 1 []
  else
    match Parse inputURL with
    | none => []
    | some parsedURL =>
      let videoID := Values_Get (parseQuery parsedURL.RawQuery) (str "v")
      if videoID ≠ [] then videoID else []

/-! ## Paths -/

/-- A path in the normal form of `filepath.Clean` (Unix): whether it is rooted,
the number of leading `..` elements (only when it is not rooted) and the
elements after them. `/srv/mp3` is `{true, 0, [srv, mp3]}`, `../a` is
`{false, 1, [a]}` and `.` is `{false, 0, []}`. -/
structure CleanPath where
  rooted : Bool
  ups : Nat
  elems : List GoString
deriving DecidableEq, Repr

/-- One element of the path in the loop of `filepath.Clean`: an empty element
and `.` are dropped, `..` removes the last element when there is one and is kept
in front when the path is not rooted, anything else is appended. -/
def cleanStep (rooted : Bool) (st : Nat × List GoString) (e : GoString) : Nat × List GoString :=
  if e = [] || e = str "." then st
  else if e = str ".." then
    (if st.2 ≠ [] then (st.1, st.2.dropLast)
     else if !rooted then (st.1 + 1, [])
     else st)
  else (st.1, st.2 ++ [e])

/-- The function `filepath.Clean`. -/
def Clean (path : GoString) : CleanPath :=
  let st := (splitByte 47 path).foldl (cleanStep (hasPre path [47])) (0, [])
  { rooted := hasPre path [47], ups := st.1, elems := st.2 }

/-- The function `filepath.Join` on a list whose last element is not empty (in
`main.go` it ends in `.mp3`): the elements from the first non-empty one on,
joined by `/` and cleaned. -/
def Join (elem : List GoString) : CleanPath :=
  Clean ((str "/").intercalate (elem.dropWhile (fun e => e = [])))

/-- The method `FileInfo.Name`: the last element of the path. -/
def CleanPath.name (p : CleanPath) : GoString :=
  match p.elems.getLast? with
  | some e => e
  | none => if p.rooted then str "/" else if p.ups = 0 then str "." else str ".."

/-- The function `filepath.Ext` on a name without separator: the text from the
last dot on, or the empty string. -/
def Ext (name : GoString) : GoString :=
  match lastIndexByte 46 name with
  | some i => name.drop i
  | none => []

/-- Whether `p` is `root` or lies below it: the paths `filepath.Walk` visits. -/
def isUnder (root p : CleanPath) : Bool :=
  p.rooted = root.rooted && p.ups = root.ups && root.elems.isPrefixOf p.elems

/-! ## The file system -/

/-- One entry of the file system with what `os.Stat` tells about it. -/
structure FileInfo where
  path : CleanPath
  isDir : Bool
  size : Nat
  modTime : Int
deriving DecidableEq, Repr

/-- The file system: its entries, in the order in which `filepath.Walk` visits
them. A well-formed file system has one entry per path (`PathsNodup`). -/
abbrev FS := List FileInfo

/-- One entry per path. -/
def PathsNodup (fs : FS) : Prop := (fs.map (·.path)).Nodup

/-- The call `os.Stat(path)` without error: the entry at the path. -/
def stat (fs : FS) (p : CleanPath) : Option FileInfo := fs.find? (fun e => e.path = p)

/-- The entries that `filepath.Walk(root, ...)` passes to its function. -/
def walk (fs : FS) (root : GoString) : List FileInfo := fs.filter (fun e => isUnder (Clean root) e.path)

/-- The order of `sort.Strings`, in which `filepath.Walk` reads the names of a
directory: byte by byte, a text before its extensions. -/
def strLt : GoString → GoString → Bool
  | [], [] => false
  | [], _ :: _ => true
  | _ :: _, [] => false
  | a :: as, b :: bs => a < b || (a = b && strLt as bs)

/-- The order in which `filepath.Walk` visits the paths of one tree, on their
elements: a directory before what it holds, the names of one directory in the
order of `strLt`. -/
def walkLt : List GoString → List GoString → Bool
  | [], [] => false
  | [], _ :: _ => true
  | _ :: _, [] => false
  | a :: as, b :: bs => strLt a b || (a = b && walkLt as bs)

/-- The entry `e` put at its place in the order of the walk. -/
def insertWalk (e : FileInfo) : FS → FS
  | [] => [e]
  | x :: xs =>
    if walkLt e.path.elems x.path.elems then e :: x :: xs else x :: insertWalk e xs

/-- The file system after a file of the given size and modification time is
written at `p`. -/
def writeFile (fs : FS) (p : CleanPath) (size : Nat) (modTime : Int) : FS :=
  insertWalk { path := p, isDir := false, size := size, modTime := modTime }
    (fs.filter (fun e => e.path ≠ p))

/-- The file system after a successful `os.Remove(p)`. -/
def removeFile (fs : FS) (p : CleanPath) : FS := fs.filter (fun e => e.path ≠ p)

/-! ## `sort.Slice` -/

/-- The type of `sort.Slice` on the slice of paths with its `less`. -/
abbrev SortSlice := (CleanPath → CleanPath → Bool) → List CleanPath → List CleanPath

/-- The contract of `sort.Slice` for a `less` that compares a key: the result
is a permutation of the slice, in ascending order of the key. Nothing is said
about elements of equal key (the sort is not stable). -/
def SortSliceContract (sortSlice : SortSlice) : Prop :=
  ∀ (key : CleanPath → Int) (l : List CleanPath),
    (sortSlice (fun a b => decide (key a < key b)) l).Perm l ∧
    (sortSlice (fun a b => decide (key a < key b)) l).Pairwise (fun a b => key a ≤ key b)

/-- The inner loop of `insertionSortLessFunc`: `x` moves left past every
element it is less than. The sorted part is held last element first. -/
def insertBack (less : CleanPath → CleanPath → Bool) (x : CleanPath) :
    List CleanPath → List CleanPath
  | [] => [x]
  | p :: ps => if less x p then p :: insertBack less x ps else x :: p :: ps

/-- The function `insertionSortLessFunc` of package `sort`, which `sort.Slice`
runs on a slice of at most 12 elements. -/
def insertionSortLess : SortSlice :=
  fun less l => (l.foldl (fun acc x => insertBack less x acc) []).reverse

/-! ## The handler -/

/-- The package variables `filesDir` and `limitBytes` (an `int64`). -/
structure Config where
  filesDir : GoString
  limitBytes : Int
deriving DecidableEq, Repr

/-- What the request carries: `r.Method`, `r.Host` and the bytes of `r.Body`. -/
structure Request where
  method : GoString
  host : GoString
  body : GoString
deriving DecidableEq, Repr

/-- The outcome of `cmd.Run()`: exit status zero with the file written at the
output path, or an error, after which a partial file may be left there. -/
inductive FetchOutcome
  | ok (size : Nat) (modTime : Int)
  | failed (leftover : Option (Nat × Int))
deriving DecidableEq, Repr

/-- The outcomes that the environment decides during one request, one for each
call of `handleMp3` that can fail. -/
structure Env where
  /-- The error of `ioutil.ReadAll`, if any. -/
  readErr : Option GoString := none
  /-- Whether `os.Stat` fails with an error other than "does not exist". -/
  statErr : Bool := false
  /-- The outcome of the downloader. -/
  fetch : FetchOutcome := FetchOutcome.failed none
  /-- Whether the walk of `getTotalSize` fails. -/
  sizeWalkErr : Bool := false
  /-- Whether the walk of `getOldestMP3File` fails. -/
  oldestWalkErr : Bool := false
  /-- Whether `os.Remove` fails. -/
  removeErr : Bool := false
  /-- Whether the `os.Stat` of `getFileModTime` fails on a path that the walk
  has listed: a symbolic link whose target is missing (the walk uses `Lstat`),
  or a file removed since the walk. -/
  modTimeStatErr : Bool := false
deriving DecidableEq, Repr

/-- The effects of a request on the outside, in order. -/
inductive Event
  /-- The downloader is run on the URL with the output path. -/
  | exec (url : GoString) (outfile : CleanPath)
  /-- The call `getTotalSize(filesDir)`. -/
  | totalSize
  /-- The call `getOldestMP3File(filesDir)`. -/
  | oldest
  /-- The call `os.Remove(path)`. -/
  | remove (path : CleanPath)
deriving DecidableEq, Repr

/-- The response written, the file system left and the effects. The headers
are those that `handleMp3` sets itself. `panicked` says that the handler did
not return but panicked. -/
structure Result where
  status : Nat
  header : List (GoString × GoString) := []
  body : GoString
  fs : FS
  trace : List Event := []
  panicked : Bool := false
deriving DecidableEq, Repr

/-- What the client receives, status and body. When the handler panics,
`net/http` recovers, logs and closes the connection; the response of
`handleMp3`, a few bytes still in the buffer of the response writer, is not
sent. -/
def Result.delivered (res : Result) : Option (Nat × GoString) :=
  if res.panicked then none else some (res.status, res.body)

/-- The outcome of `getOldestMP3File`: a path, an error, or a panic. -/
inductive Oldest
  | found (path : CleanPath)
  | error
  | panic
deriving DecidableEq, Repr

/-- The sum that `getTotalSize` computes: the sizes of the entries below the
folder that are not directories. -/
def dirSize (fs : FS) (folderPath : GoString) : Nat :=
  ((walk fs folderPath).filter (fun e => !e.isDir)).foldl (fun acc e => acc + e.size) 0

/-- The function `getTotalSize` (none for an error). -/
def getTotalSize (env : Env) (fs : FS) (folderPath : GoString) : Option Int :=
  if env.sizeWalkErr then none else some (dirSize fs folderPath : Nat)

/-- The function `getFileModTime`: `fileInfo, _ := os.Stat(filePath)` and then
`fileInfo.ModTime()`. When `os.Stat` fails, `fileInfo` is nil and the call
panics: that is the value none. -/
def getFileModTime (env : Env) (fs : FS) (filePath : CleanPath) : Option Int :=
  if env.modTimeStatErr then none else (stat fs filePath).map (·.modTime)

/-- The slice `mp3Files` of `getOldestMP3File` before it is sorted. -/
def mp3Files (fs : FS) (folderPath : GoString) : List CleanPath :=
  ((walk fs folderPath).filter (fun e => !e.isDir && Ext e.path.name = str ".mp3")).map (·.path)

/-- The function `getOldestMP3File`. `sort.Slice` calls `less` only on a slice
of two or more elements, and then on each of them; `less` panics when
`getFileModTime` does. When it does not panic, each modification time it
compares is there. -/
def getOldestMP3File (sortSlice : SortSlice) (env : Env) (fs : FS) (folderPath : GoString) :
    Oldest :=
  if env.oldestWalkErr then Oldest.error
  else if 2 ≤ (mp3Files fs folderPath).length &&
      (mp3Files fs folderPath).any (fun p => (getFileModTime env fs p).isNone) then
    Oldest.panic
  else
    match (sortSlice
        (fun a b => decide ((getFileModTime env fs a).getD 0 < (getFileModTime env fs b).getD 0))
        (mp3Files fs folderPath)).head? with
    | some oldestMP3File => Oldest.found oldestMP3File
    | none => Oldest.error

/-- The function `fileAlreadyExists`. -/
def fileAlreadyExists (cfg : Config) (env : Env) (fs : FS) (videoID : GoString) : Bool :=
  if env.statErr then false
  else (stat fs (Join [cfg.filesDir, videoID ++ str ".mp3"])).isSome

/-- The eviction pass of `handleMp3` (the lines after the response is
written): the file system it leaves, its effects, and whether it panicked. -/
def evictionPass (sortSlice : SortSlice) (cfg : Config) (env : Env) (fs : FS) :
    FS × List Event × Bool :=
  match getTotalSize env fs cfg.filesDir with
  | none => (fs, [Event.totalSize], false)
  | some totalSize =>
    if totalSize > cfg.limitBytes then
      match getOldestMP3File sortSlice env fs cfg.filesDir with
      | Oldest.panic => (fs, [Event.totalSize, Event.oldest], true)
      | Oldest.error => (fs, [Event.totalSize, Event.oldest], false)
      | Oldest.found oldestMP3File =>
        if env.removeErr then
          (fs, [Event.totalSize, Event.oldest, Event.remove oldestMP3File], false)
        else
          (removeFile fs oldestMP3File,
            [Event.totalSize, Event.oldest, Event.remove oldestMP3File], false)
    else (fs, [Event.totalSize], false)

/-- The call `http.Error(w, msg, code)`: the status and the message followed
by a newline. -/
def httpError (fs : FS) (msg : GoString) (code : Nat) : Result :=
  { status := code, body := msg ++ [10], fs := fs }

/-- The body of the two 200 responses: `Sprintf("%s/%s/%s.mp3", r.Host,
"files", videoID)` written by `Fprintln`. -/
def artifactURL (host videoID : GoString) : GoString :=
  host ++ str "/" ++ str "files" ++ str "/" ++ videoID ++ str ".mp3" ++ [10]

/-- The function `handleMp3` of `main.go`. -/
def handleMp3 (sortSlice : SortSlice) (cfg : Config) (fs : FS) (r : Request) (env : Env) : Result :=
  if r.method = str "OPTIONS" then
    { status := 200,
      header := [(str "Access-Control-Allow-Origin", str "*"),
                 (str "Access-Control-Allow-Methods", str "POST"),
                 (str "Access-Control-Allow-Headers", str "Content-Type")],
      body := [], fs := fs }
  else if r.method ≠ str "POST" then httpError fs (str "Method not allowed") 405
  else
    match env.readErr with
    | some err => httpError fs (str "Error reading request body: " ++ err) 500
    | none =>
      let url := r.body
      if url = [] then httpError fs (str "URL not provided") 400
      else if !isValidURL url then httpError fs (str "Invalid URL") 400
      else
        let videoID := getVideoID url
        if videoID = [] then httpError fs (str "Bad YT URL") 400
        else if fileAlreadyExists cfg env fs videoID then
          { status := 200, body := artifactURL r.host videoID, fs := fs }
        else
          let outfile := Join [cfg.filesDir, videoID ++ str ".mp3"]
          match env.fetch with
          | FetchOutcome.failed leftover =>
            { httpError
                (match leftover with
                 | some (size, modTime) => writeFile fs outfile size modTime
                 | none => fs)
                (str "Internal server error") 500 with
              trace := [Event.exec url outfile] }
          | FetchOutcome.ok size modTime =>
            let fs1 := writeFile fs outfile size modTime
            { status := 200, body := artifactURL r.host videoID,
              fs := (evictionPass sortSlice cfg env fs1).1,
              trace := Event.exec url outfile :: (evictionPass sortSlice cfg env fs1).2.1,
              panicked := (evictionPass sortSlice cfg env fs1).2.2 }

/-- The file system after a sequence of requests, each with its environment,
is handled one after the other. -/
def storeAfter (sortSlice : SortSlice) (cfg : Config) : FS → List (Request × Env) → FS
  | fs, [] => fs
  | fs, (r, env) :: rest =>
    storeAfter sortSlice cfg (handleMp3 sortSlice cfg fs r env).fs rest

/-! ## The words of the specification -/

/-- A URL-safe identifier character: a letter, a digit, `_` or `-`. -/
def IsIdByte (b : Nat) : Prop :=
  (97 ≤ b ∧ b ≤ 122) ∨ (65 ≤ b ∧ b ≤ 90) ∨ (48 ≤ b ∧ b ≤ 57) ∨ b = 95 ∨ b = 45

/-- A byte that stands for itself in the value of a query parameter: not a
control byte, and none of `#` (starts the fragment), `%` (starts an escape),
`&` (ends the parameter), `+` (decoded to a space) and `;` (the parameter is
dropped). -/
def IsPlainQueryByte (b : Nat) : Prop :=
  32 ≤ b ∧ b ≠ 127 ∧ b ≠ 35 ∧ b ≠ 37 ∧ b ≠ 38 ∧ b ≠ 43 ∧ b ≠ 59

instance : DecidablePred IsIdByte := fun b => by unfold IsIdByte; infer_instance

instance : DecidablePred IsPlainQueryByte := fun b => by unfold IsPlainQueryByte; infer_instance

/-- Whether `p` is a direct child of the directory `dir`. -/
def isDirectChild (dir p : CleanPath) : Bool :=
  p.rooted = dir.rooted && p.ups = dir.ups && p.elems.dropLast = dir.elems && p.elems ≠ []

instance (fs : FS) : Decidable (PathsNodup fs) := by unfold PathsNodup; infer_instance

/-- The output path of the request: `filepath.Join(filesDir, videoID + ".mp3")`. -/
def outfile (cfg : Config) (r : Request) : CleanPath :=
  Join [cfg.filesDir, getVideoID r.body ++ str ".mp3"]

/-- The file system at the time of the eviction pass: after the downloader has
written the file of the request. -/
def fetched (cfg : Config) (fs : FS) (r : Request) (size : Nat) (modTime : Int) : FS :=
  writeFile fs (outfile cfg r) size modTime

/-- The function `strings.Join(segs, "&")`: the parameters of a query. -/
def joinAmp : List GoString → GoString
  | [] => []
  | [s] => s
  | s :: t :: rest => s ++ 38 :: joinAmp (t :: rest)

/-- The size of the file that the downloader leaves at the output path. -/
def FetchOutcome.written : FetchOutcome → Nat
  | FetchOutcome.ok size _ => size
  | FetchOutcome.failed (some (size, _)) => size
  | FetchOutcome.failed none => 0

/-! ## Data for concrete runs -/

/-- A size given in megabytes, in bytes (as `main` computes `limitBytes`). -/
def mib (n : Nat) : Nat := n * 1024 * 1024

/-- The hosting directory `/srv/mp3` with `dirSizeMaxMB = 10`. -/
def cfg10 : Config := { filesDir := str "/srv/mp3", limitBytes := (mib 10 : Nat) }

/-- A POST of the short-form URL of `id` to the host `example.org`. -/
def postShort (id : String) : Request :=
  { method := str "POST", host := str "example.org", body := str "https://youtu.be/" ++ str id }

/-- The regular file `/srv/mp3/<name>` of the given size in megabytes. -/
def fileIn (name : String) (sizeMB : Nat) (modTime : Int) : FileInfo :=
  { path := Clean (str "/srv/mp3/" ++ str name), isDir := false, size := mib sizeMB,
    modTime := modTime }

/-! ## Lemmas on strings -/

theorem cutByte_of_not_mem (sep : Nat) (s : GoString) (h : sep ∉ s) :
    cutByte sep s = (s, [], false) := by
  induction s with
  | nil => rfl
  | cons c cs ih =>
    have hc : c ≠ sep := fun e => h (by simp [e])
    have hcs : sep ∉ cs := fun m => h (List.mem_cons_of_mem _ m)
    simp [cutByte, hc, ih hcs]

theorem cutByte_append (sep : Nat) (a r : GoString) (h : sep ∉ a) :
    cutByte sep (a ++ sep :: r) = (a, r, true) := by
  induction a with
  | nil => simp [cutByte]
  | cons c cs ih =>
    have hc : c ≠ sep := fun e => h (by simp [e])
    have hcs : sep ∉ cs := fun m => h (List.mem_cons_of_mem _ m)
    simp [cutByte, hc, ih hcs]

theorem splitByte_of_not_mem (sep : Nat) (s : GoString) (h : sep ∉ s) :
    splitByte sep s = [s] := by
  induction s with
  | nil => rfl
  | cons c cs ih =>
    have hc : c ≠ sep := fun e => h (by simp [e])
    have hcs : sep ∉ cs := fun m => h (List.mem_cons_of_mem _ m)
    simp [splitByte, hc, ih hcs]

theorem splitByte_append (sep : Nat) (a r : GoString) (h : sep ∉ a) :
    splitByte sep (a ++ sep :: r) = a :: splitByte sep r := by
  induction a with
  | nil => simp [splitByte]
  | cons c cs ih =>
    have hc : c ≠ sep := fun e => h (by simp [e])
    have hcs : sep ∉ cs := fun m => h (List.mem_cons_of_mem _ m)
    simp [splitByte, hc, ih hcs]

/-- The check of `unescape` on a byte that is not `%`. -/
theorem unescapeCheck_cons (mode : Encoding) (c : Nat) (rest : GoString) (hc : c ≠ 37) :
    unescapeCheck mode (c :: rest) =
      (if c = 43 then unescapeCheck mode rest
       else if (mode = encodeHost || mode = encodeZone) && c < 0x80 && shouldEscape c encodeHost
         then false
       else unescapeCheck mode rest) := by
  conv_lhs => unfold unescapeCheck
  split
  · rename_i heq; cases heq
  · rename_i heq; injection heq with h1 h2; exact absurd h1 hc
  · rename_i heq; injection heq with h1 h2; subst h1; subst h2; simp [hc]

/-- The decoding of `unescape` on a byte that is not `%`. -/
theorem unescapeDecode_cons (mode : Encoding) (c : Nat) (rest : GoString) (hc : c ≠ 37) :
    unescapeDecode mode (c :: rest) =
      (if c = 43 then (if mode = encodeQueryComponent then 32 else 43) :: unescapeDecode mode rest
       else c :: unescapeDecode mode rest) := by
  conv_lhs => unfold unescapeDecode
  split
  · rename_i heq; cases heq
  · rename_i heq; injection heq with h1 h2; exact absurd h1 hc
  · rename_i heq; injection heq with h1 h2; subst h1; subst h2; rfl

/-- A text without `%` passes the check of `unescape` in the mode of the query. -/
theorem unescapeCheck_query_plain (s : GoString) (h37 : 37 ∉ s) :
    unescapeCheck encodeQueryComponent s = true := by
  induction s with
  | nil => rfl
  | cons c cs ih =>
    have hc : c ≠ 37 := fun e => h37 (by simp [e])
    have hcs : 37 ∉ cs := fun m => h37 (List.mem_cons_of_mem _ m)
    rw [unescapeCheck_cons _ _ _ hc]
    simp [ih hcs]

theorem unescapeDecode_query_plain (s : GoString) (h37 : 37 ∉ s) (h43 : 43 ∉ s) :
    unescapeDecode encodeQueryComponent s = s := by
  induction s with
  | nil => rfl
  | cons c cs ih =>
    have hc : c ≠ 37 := fun e => h37 (by simp [e])
    have hcs : 37 ∉ cs := fun m => h37 (List.mem_cons_of_mem _ m)
    have hc' : c ≠ 43 := fun e => h43 (by simp [e])
    have hcs' : 43 ∉ cs := fun m => h43 (List.mem_cons_of_mem _ m)
    rw [unescapeDecode_cons _ _ _ hc]
    simp [hc', ih hcs hcs']

theorem QueryUnescape_plain (s : GoString) (h37 : 37 ∉ s) (h43 : 43 ∉ s) :
    QueryUnescape s = some s := by
  simp [QueryUnescape, unescape, unescapeCheck_query_plain s h37,
    unescapeDecode_query_plain s h37 h43]

/-! ## `getVideoID` -/

theorem inClass_idClass_iff (b : Nat) : inClass idClass b = true ↔ IsIdByte b := by
  simp only [inClass, idClass, IsIdByte, List.any_cons, List.any_nil, Bool.or_false,
    Bool.or_eq_true, Bool.and_eq_true, decide_eq_true_eq]
  omega

theorem hasPre_append (p r : GoString) : hasPre (p ++ r) p = true := by
  simp [hasPre]

theorem hasSuf_singleton (s : GoString) (b : Nat) (h : hasSuf s [b] = true) :
    s.getLast? = some b := by
  rw [List.getLast?_eq_head?_reverse]
  unfold hasSuf at h
  cases hs : s.reverse with
  | nil => rw [hs] at h; simp [List.isPrefixOf] at h
  | cons x t => rw [hs] at h; simp [List.isPrefixOf] at h; simp [h]

/-- With a query that is not empty, `parse` does not take the trailing `?`
for an empty query. -/
theorem forceQuery_false (a r : GoString) (hr : r ≠ []) :
    (hasSuf (a ++ 63 :: r) [63] && decide ((a ++ 63 :: r).count 63 = 1)) = false := by
  by_contra hcon
  simp only [Bool.not_eq_false, Bool.and_eq_true, decide_eq_true_eq] at hcon
  obtain ⟨hs, hc⟩ := hcon
  have hlast := hasSuf_singleton _ _ hs
  have hne : (63 :: r) ≠ [] := by simp
  rw [List.getLast?_append_of_ne_nil _ hne] at hlast
  have hmem : 63 ∈ r := by
    cases r with
    | nil => exact absurd rfl hr
    | cons x t =>
      rw [List.getLast?_cons_cons] at hlast
      exact List.mem_of_getLast?_eq_some hlast
  have hpos : 0 < r.count 63 := List.count_pos_iff.2 hmem
  rw [List.count_append, List.count_cons_self] at hc
  omega

theorem getScheme_https (r : GoString) :
    getScheme (str "https:" ++ r) = some (str "https", r) := by
  rfl

/-- What `url.Parse` makes of `https://www.youtube.com/watch?<q>`, for a query
that is not empty and has no control byte and no `#`. -/
theorem Parse_watch (q : GoString) (hq : q ≠ []) (hctl : ∀ b ∈ q, 32 ≤ b ∧ b ≠ 127)
    (h35 : 35 ∉ q) :
    Parse (str "https://www.youtube.com/watch?" ++ q) =
      some { Scheme := str "https", Host := str "www.youtube.com", Path := str "/watch",
             RawQuery := q } := by
  have hlit : str "https://www.youtube.com/watch?" ++ q =
      str "https:" ++ (str "//www.youtube.com/watch" ++ 63 :: q) := by
    have : str "https://www.youtube.com/watch?" =
        str "https:" ++ (str "//www.youtube.com/watch" ++ [63]) := by decide
    rw [this]; simp
  have hfrag : 35 ∉ str "https://www.youtube.com/watch?" ++ q := by
    intro hm
    rcases List.mem_append.1 hm with h | h
    · exact absurd h (by decide)
    · exact h35 h
  have hnoctl : stringContainsCTLByte (str "https://www.youtube.com/watch?" ++ q) = false := by
    unfold stringContainsCTLByte
    rw [List.any_append, Bool.or_eq_false_iff]
    refine ⟨by decide, ?_⟩
    rw [List.any_eq_false]
    intro b hb
    have := hctl b hb
    simp only [Bool.or_eq_true, decide_eq_true_eq, not_or]
    omega
  have hstar : str "https://www.youtube.com/watch?" ++ q ≠ str "*" := by
    intro h
    have := congrArg List.head? h
    rw [hlit] at this
    have h1 : (str "https:" ++ (str "//www.youtube.com/watch" ++ 63 :: q)).head? = some 104 := rfl
    have h2 : (str "*").head? = some 42 := rfl
    rw [h1, h2] at this
    exact absurd this (by decide)
  have hrest : parseRest (toLower (str "https")) (str "//www.youtube.com/watch") =
      some { Scheme := str "https", Host := str "www.youtube.com", Path := str "/watch" } := by
    decide
  have hforce := forceQuery_false (str "//www.youtube.com/watch") q hq
  have hcut := cutByte_append 63 (str "//www.youtube.com/watch") q (by decide)
  have h63 : str "?" = [63] := by decide
  unfold Parse
  rw [cutByte_of_not_mem 35 _ hfrag]
  simp only [parse, hnoctl, hstar, hlit.symm ▸ getScheme_https _, h63, hforce, hcut,
    Bool.false_eq_true, if_false, if_true]
  rw [hrest]
  simp

theorem parseQueryPair_v (id : GoString) (hid : ∀ b ∈ id, IsPlainQueryByte b) :
    parseQueryPair (str "v=" ++ id) = some (str "v", id) := by
  have h59 : 59 ∉ id := fun h => (hid 59 h).2.2.2.2.2.2 rfl
  have h37 : 37 ∉ id := fun h => (hid 37 h).2.2.2.1 rfl
  have h43 : 43 ∉ id := fun h => (hid 43 h).2.2.2.2.2.1 rfl
  have hlit : str "v=" ++ id = [118] ++ 61 :: id := by
    have : str "v=" = [118, 61] := by decide
    rw [this]; rfl
  have hcut := cutByte_append 61 [118] id (by decide)
  have hv : QueryUnescape [118] = some (str "v") := by decide
  unfold parseQueryPair
  rw [hlit, hcut]
  simp [h59, hv, QueryUnescape_plain id h37 h43]

/-- C5. For every non-empty `id` made only of letters, digits, `_` and `-`,
`getVideoID("https://youtu.be/" + id)` returns exactly `id`. -/
theorem getVideoID_short_form (id : GoString) (hne : id ≠ []) (hid : ∀ b ∈ id, IsIdByte b) :
    getVideoID (str "https://youtu.be/" ++ id) = id := by
  have hall : id.all (inClass idClass) = true := by
    rw [List.all_eq_true]
    intro b hb
    exact (inClass_idClass_iff b).2 (hid b hb)
  simp [getVideoID, urlPatternFindStringSubmatch, hasPre_append, hall, hne]

theorem getVideoID_short_form_witness :
    str "abc123" ≠ [] ∧ (∀ b ∈ str "abc123", IsIdByte b) ∧
      getVideoID (str "https://youtu.be/" ++ str "abc123") = str "abc123" :=
  ⟨by decide, by decide, getVideoID_short_form (str "abc123") (by decide) (by decide)⟩

/-- C6, as the claim states it, fails: the percent escape in the value of `v`
is decoded, so the identifier returned is not the text written in the URL. -/
theorem getVideoID_long_form_decodes :
    isValidURL (str "https://www.youtube.com/watch?v=a%2Fb") = true ∧
      getVideoID (str "https://www.youtube.com/watch?v=a%2Fb") = str "a/b" ∧
      getVideoID (str "https://www.youtube.com/watch?v=a%2Fb") ≠ str "a%2Fb" := by
  decide

theorem joinAmp_cons (s : GoString) (segs : List GoString) (h : segs ≠ []) :
    joinAmp (s :: segs) = s ++ 38 :: joinAmp segs := by
  cases segs with
  | nil => exact absurd rfl h
  | cons t rest => rfl

theorem mem_joinAmp (segs : List GoString) :
    ∀ b ∈ joinAmp segs, b = 38 ∨ ∃ s ∈ segs, b ∈ s := by
  induction segs with
  | nil => intro b hb; simp [joinAmp] at hb
  | cons s rest ih =>
    intro b hb
    by_cases hr : rest = []
    · subst hr
      exact Or.inr ⟨s, by simp, by simpa [joinAmp] using hb⟩
    · rw [joinAmp_cons s rest hr] at hb
      rcases List.mem_append.1 hb with h | h
      · exact Or.inr ⟨s, by simp, h⟩
      · rcases List.mem_cons.1 h with h | h
        · exact Or.inl h
        · rcases ih b h with h' | ⟨t, ht, hbt⟩
          · exact Or.inl h'
          · exact Or.inr ⟨t, List.mem_cons_of_mem _ ht, hbt⟩

theorem mem_joinAmp_of_mem (segs : List GoString) (s : GoString) (hs : s ∈ segs) :
    ∀ b ∈ s, b ∈ joinAmp segs := by
  induction segs with
  | nil => simp at hs
  | cons t rest ih =>
    intro b hb
    by_cases hr : rest = []
    · subst hr
      simp only [List.mem_singleton] at hs
      subst hs
      simpa [joinAmp] using hb
    · rw [joinAmp_cons t rest hr]
      rcases List.mem_cons.1 hs with h | h
      · subst h; exact List.mem_append_left _ hb
      · exact List.mem_append_right _ (List.mem_cons_of_mem _ (ih h b hb))

/-- The loop of `parseQuery` reads back the parameters that were joined. -/
theorem splitByte_joinAmp (segs : List GoString) (hne : segs ≠ [])
    (h38 : ∀ s ∈ segs, 38 ∉ s) : splitByte 38 (joinAmp segs) = segs := by
  induction segs with
  | nil => exact absurd rfl hne
  | cons s rest ih =>
    have hs : 38 ∉ s := h38 s (by simp)
    by_cases hr : rest = []
    · subst hr
      simpa [joinAmp] using splitByte_of_not_mem 38 s hs
    · rw [joinAmp_cons s rest hr, splitByte_append 38 s _ hs,
        ih hr (fun t ht => h38 t (List.mem_cons_of_mem _ ht))]

theorem count_joinAmp (segs : List GoString) (hne : segs ≠ [])
    (h38 : ∀ s ∈ segs, 38 ∉ s) : (joinAmp segs).count 38 + 1 = segs.length := by
  induction segs with
  | nil => exact absurd rfl hne
  | cons s rest ih =>
    have hs : s.count 38 = 0 := List.count_eq_zero.2 (h38 s (by simp))
    by_cases hr : rest = []
    · subst hr
      simp [joinAmp, hs]
    · have := ih hr (fun t ht => h38 t (List.mem_cons_of_mem _ ht))
      rw [joinAmp_cons s rest hr, List.count_append, List.count_cons_self, hs,
        List.length_cons]
      omega

/-- The first value of `v` among the parameters, when none before has that
name. -/
theorem Values_Get_v (pre post : List GoString) (id : GoString)
    (hid : ∀ b ∈ id, IsPlainQueryByte b)
    (hpre : ∀ s ∈ pre, ∀ kv, parseQueryPair s = some kv → kv.1 ≠ str "v") :
    Values_Get ((pre ++ [str "v=" ++ id] ++ post).filterMap parseQueryPair) (str "v") = id := by
  have hnone : (pre.filterMap parseQueryPair).find? (fun kv => kv.1 = str "v") = none := by
    rw [List.find?_eq_none]
    intro kv hkv
    obtain ⟨s, hs, hskv⟩ := List.mem_filterMap.1 hkv
    simpa using hpre s hs kv hskv
  unfold Values_Get
  rw [List.append_assoc, List.filterMap_append, List.find?_append, hnone]
  simp [List.filterMap_cons, parseQueryPair_v id hid]

/-- C6 (amended). For every URL `https://www.youtube.com/watch?<query>` whose
query is a list of at most 10000 parameters joined by `&`, without control
byte and without `#`, in which `v=<id>` is the first parameter of the name `v`
and `<id>` has none of `%`, `+` and `;`, `getVideoID` returns exactly
`<id>`. -/
theorem getVideoID_long_form (pre post : List GoString) (id : GoString)
    (hid : ∀ b ∈ id, IsPlainQueryByte b)
    (hseg : ∀ s ∈ pre ++ post, ∀ b ∈ s, 32 ≤ b ∧ b ≠ 127 ∧ b ≠ 35 ∧ b ≠ 38)
    (hpre : ∀ s ∈ pre, ∀ kv, parseQueryPair s = some kv → kv.1 ≠ str "v")
    (hmax : pre.length + 1 + post.length ≤ 10000) :
    getVideoID (str "https://www.youtube.com/watch?" ++
      joinAmp (pre ++ [str "v=" ++ id] ++ post)) = id := by
  have hv : ∀ b ∈ str "v=", 32 ≤ b ∧ b ≠ 127 ∧ b ≠ 35 ∧ b ≠ 38 := by decide
  have hall : ∀ s ∈ pre ++ [str "v=" ++ id] ++ post,
      ∀ b ∈ s, 32 ≤ b ∧ b ≠ 127 ∧ b ≠ 35 ∧ b ≠ 38 := by
    intro s hs b hb
    rcases List.mem_append.1 hs with h | h
    · rcases List.mem_append.1 h with h | h
      · exact hseg s (List.mem_append_left _ h) b hb
      · rw [List.mem_singleton] at h
        subst h
        rcases List.mem_append.1 hb with h | h
        · exact hv b h
        · exact ⟨(hid b h).1, (hid b h).2.1, (hid b h).2.2.1, (hid b h).2.2.2.2.1⟩
    · exact hseg s (List.mem_append_right _ h) b hb
  have hne : pre ++ [str "v=" ++ id] ++ post ≠ [] := by simp
  have h38 : ∀ s ∈ pre ++ [str "v=" ++ id] ++ post, 38 ∉ s :=
    fun s hs hb => (hall s hs 38 hb).2.2.2 rfl
  have hbytes : ∀ b ∈ joinAmp (pre ++ [str "v=" ++ id] ++ post),
      32 ≤ b ∧ b ≠ 127 ∧ b ≠ 35 := by
    intro b hb
    rcases mem_joinAmp _ b hb with h | ⟨s, hs, hbs⟩
    · subst h; decide
    · exact ⟨(hall s hs b hbs).1, (hall s hs b hbs).2.1, (hall s hs b hbs).2.2.1⟩
  have hq : joinAmp (pre ++ [str "v=" ++ id] ++ post) ≠ [] := by
    have h118 : (118 : Nat) ∈ str "v=" ++ id := by
      have : str "v=" = [118, 61] := by decide
      rw [this]; simp
    have := mem_joinAmp_of_mem (pre ++ [str "v=" ++ id] ++ post) (str "v=" ++ id)
      (by simp) 118 h118
    intro h
    rw [h] at this
    simp at this
  have hshort : urlPatternFindStringSubmatch (str "https://www.youtube.com/watch?" ++
      joinAmp (pre ++ [str "v=" ++ id] ++ post)) = [] := by
    have hp : hasPre (str "https://www.youtube.com/watch?" ++
        joinAmp (pre ++ [str "v=" ++ id] ++ post)) (str "https://youtu.be/") = false := rfl
    unfold urlPatternFindStringSubmatch
    simp only [hp, Bool.false_and, Bool.false_eq_true, if_false]
  have hcount : ¬ ((joinAmp (pre ++ [str "v=" ++ id] ++ post)).count 38 + 1 > 10000) := by
    rw [count_joinAmp _ hne h38]
    simp only [List.length_append, List.length_singleton]
    omega
  have hquery : parseQuery (joinAmp (pre ++ [str "v=" ++ id] ++ post)) =
      (pre ++ [str "v=" ++ id] ++ post).filterMap parseQueryPair := by
    unfold parseQuery
    rw [if_neg hcount, if_neg hq, splitByte_joinAmp _ hne h38]
  unfold getVideoID
  rw [hshort, Parse_watch _ hq (fun b hb => ⟨(hbytes b hb).1, (hbytes b hb).2.1⟩)
    (fun hb => (hbytes 35 hb).2.2 rfl)]
  simp only [hquery, Values_Get_v pre post id hid hpre, List.length_nil]
  by_cases hnil : id = []
  · simp [hnil]
  · simp [hnil]

theorem getVideoID_long_form_witness :
    (∀ b ∈ str "dQw4w9WgXcQ", IsPlainQueryByte b) ∧
      (∀ s ∈ [str "t=42s"] ++ [str "list=PL1"],
        ∀ b ∈ s, 32 ≤ b ∧ b ≠ 127 ∧ b ≠ 35 ∧ b ≠ 38) ∧
      (∀ s ∈ [str "t=42s"], ∀ kv, parseQueryPair s = some kv → kv.1 ≠ str "v") ∧
      getVideoID (str "https://www.youtube.com/watch?" ++
        joinAmp ([str "t=42s"] ++ [str "v=" ++ str "dQw4w9WgXcQ"] ++ [str "list=PL1"])) =
        str "dQw4w9WgXcQ" :=
  have hpre : ∀ s ∈ [str "t=42s"], ∀ kv, parseQueryPair s = some kv → kv.1 ≠ str "v" := by
    intro s hs kv h
    rw [List.mem_singleton] at hs
    subst hs
    have hp : parseQueryPair (str "t=42s") = some (str "t", str "42s") := by decide
    rw [hp] at h
    cases h
    decide
  ⟨by decide, by decide, hpre,
    getVideoID_long_form [str "t=42s"] [str "list=PL1"] (str "dQw4w9WgXcQ")
      (by decide) (by decide) hpre (by decide)⟩

/-- C7. The long form of `getVideoID` does not look at the host: a URL on
`example.com` with a parameter `v` does not match the short form, is parsed
with that host, and yields the value `abc`, not the empty string; `handleMp3`
then runs the downloader on it and answers 200, not 400. -/
theorem getVideoID_other_host :
    urlPatternFindStringSubmatch (str "https://example.com/watch?v=abc") = [] ∧
      (Parse (str "https://example.com/watch?v=abc")).map (·.Host) = some (str "example.com") ∧
      getVideoID (str "https://example.com/watch?v=abc") = str "abc" ∧
      (handleMp3 insertionSortLess cfg10 []
          { method := str "POST", host := str "example.org",
            body := str "https://example.com/watch?v=abc" }
          { fetch := FetchOutcome.ok (mib 7) 3 }).status = 200 ∧
      (handleMp3 insertionSortLess cfg10 []
          { method := str "POST", host := str "example.org",
            body := str "https://example.com/watch?v=abc" }
          { fetch := FetchOutcome.ok (mib 7) 3 }).trace.head? =
        some (Event.exec (str "https://example.com/watch?v=abc")
          (Clean (str "/srv/mp3/abc.mp3"))) := by
  decide

/-- C10. The long form puts no limit on the characters of the identifier: the
value `../x` of `v` passes `isValidURL`, is returned as it is, and the
destination path `filepath.Join(filesDir, id + ".mp3")` is then `/srv/x.mp3`
for the directory `/srv/mp3`, which is not a child of that directory. -/
theorem getVideoID_long_form_leaves_filesDir :
    isValidURL (str "https://www.youtube.com/watch?v=../x") = true ∧
      getVideoID (str "https://www.youtube.com/watch?v=../x") = str "../x" ∧
      ¬ (∀ b ∈ getVideoID (str "https://www.youtube.com/watch?v=../x"), IsIdByte b) ∧
      Join [str "/srv/mp3", str "../x" ++ str ".mp3"] = Clean (str "/srv/x.mp3") ∧
      isDirectChild (Clean (str "/srv/mp3"))
        (Join [str "/srv/mp3", str "../x" ++ str ".mp3"]) = false := by
  decide


/-! ## The handler -/

theorem isValidURL_nil : isValidURL [] = false := by decide

/-- The handler on a POST whose body is read: the chain of checks. -/
theorem handleMp3_post (sortSlice : SortSlice) (cfg : Config) (fs : FS) (r : Request) (env : Env)
    (hpost : r.method = str "POST") (hread : env.readErr = none) :
    handleMp3 sortSlice cfg fs r env =
      if r.body = [] then httpError fs (str "URL not provided") 400
      else if isValidURL r.body = false then httpError fs (str "Invalid URL") 400
      else if getVideoID r.body = [] then httpError fs (str "Bad YT URL") 400
      else if fileAlreadyExists cfg env fs (getVideoID r.body) then
        { status := 200, body := artifactURL r.host (getVideoID r.body), fs := fs }
      else
        match env.fetch with
        | FetchOutcome.failed leftover =>
          { httpError
              (match leftover with
               | some (size, modTime) =>
                 writeFile fs (Join [cfg.filesDir, getVideoID r.body ++ str ".mp3"]) size modTime
               | none => fs)
              (str "Internal server error") 500 with
            trace := [Event.exec r.body (Join [cfg.filesDir, getVideoID r.body ++ str ".mp3"])] }
        | FetchOutcome.ok size modTime =>
          { status := 200, body := artifactURL r.host (getVideoID r.body),
            fs := (evictionPass sortSlice cfg env
              (writeFile fs (Join [cfg.filesDir, getVideoID r.body ++ str ".mp3"]) size modTime)).1,
            trace := Event.exec r.body (Join [cfg.filesDir, getVideoID r.body ++ str ".mp3"]) ::
              (evictionPass sortSlice cfg env
                (writeFile fs (Join [cfg.filesDir, getVideoID r.body ++ str ".mp3"])
                  size modTime)).2.1,
            panicked := (evictionPass sortSlice cfg env
                (writeFile fs (Join [cfg.filesDir, getVideoID r.body ++ str ".mp3"])
                  size modTime)).2.2 } := by
  have hne : str "POST" ≠ str "OPTIONS" := by decide
  unfold handleMp3
  rw [hpost, if_neg hne, if_neg (fun h => h rfl), hread]
  simp only [Bool.not_eq_true']

/-- C8. For every POST request whose body is read, the status is 400 exactly
when the body is empty, or does not match the pattern of `isValidURL`, or
`getVideoID` returns the empty string for it; and then no fetch is invoked, no
eviction pass runs (the request has no effect at all) and the file system is
unchanged. -/
theorem handleMp3_bad_request (sortSlice : SortSlice) (cfg : Config) (fs : FS) (r : Request)
    (env : Env) (hpost : r.method = str "POST") (hread : env.readErr = none) :
    ((handleMp3 sortSlice cfg fs r env).status = 400 ↔
        (r.body = [] ∨ isValidURL r.body = false ∨ getVideoID r.body = [])) ∧
      ((r.body = [] ∨ isValidURL r.body = false ∨ getVideoID r.body = []) →
        (handleMp3 sortSlice cfg fs r env).trace = [] ∧
        (handleMp3 sortSlice cfg fs r env).fs = fs) := by
  rw [handleMp3_post sortSlice cfg fs r env hpost hread]
  by_cases h1 : r.body = []
  · simp [h1, httpError]
  · by_cases h2 : isValidURL r.body = false
    · simp [h1, h2, httpError]
    · by_cases h3 : getVideoID r.body = []
      · simp [h1, h2, h3, httpError]
      · have hv : isValidURL r.body = true := by simpa using h2
        simp only [h1, hv, h3, if_false, Bool.true_eq_false, false_or, or_self, false_implies,
          and_true, iff_false]
        split
        · simp
        · cases env.fetch <;> simp [httpError]

theorem handleMp3_bad_request_witness :
    (str "POST" = str "POST") ∧ (({} : Env).readErr = none) ∧
      (((handleMp3 insertionSortLess cfg10 []
            { method := str "POST", host := str "h", body := str "not a url" } {}).status = 400 ↔
          (str "not a url" = [] ∨ isValidURL (str "not a url") = false ∨
            getVideoID (str "not a url") = [])) ∧
        ((str "not a url" = [] ∨ isValidURL (str "not a url") = false ∨
            getVideoID (str "not a url") = []) →
          (handleMp3 insertionSortLess cfg10 []
            { method := str "POST", host := str "h", body := str "not a url" } {}).trace = [] ∧
          (handleMp3 insertionSortLess cfg10 []
            { method := str "POST", host := str "h", body := str "not a url" } {}).fs = [])) :=
  ⟨rfl, rfl, handleMp3_bad_request insertionSortLess cfg10
    [] { method := str "POST", host := str "h", body := str "not a url" } {} rfl rfl⟩

/-- The response that `handleMp3` writes for a POST with a recognized URL
whose fetch succeeds is the same for every outcome of the eviction pass.
Whether it reaches the client is another matter: not when the pass panics. -/
theorem handleMp3_written_response (sortSlice : SortSlice) (cfg : Config) (fs : FS)
    (r : Request) (env : Env) (size : Nat) (modTime : Int)
    (hpost : r.method = str "POST") (hread : env.readErr = none)
    (hvalid : isValidURL r.body = true) (hid : getVideoID r.body ≠ [])
    (hfetch : env.fetch = FetchOutcome.ok size modTime) :
    (handleMp3 sortSlice cfg fs r env).status = 200 ∧
      (handleMp3 sortSlice cfg fs r env).body =
        r.host ++ str "/files/" ++ getVideoID r.body ++ str ".mp3" ++ str "\n" := by
  have hbody : r.body ≠ [] := by
    intro h; rw [h, isValidURL_nil] at hvalid; exact absurd hvalid (by decide)
  have hurl : artifactURL r.host (getVideoID r.body) =
      r.host ++ str "/files/" ++ getVideoID r.body ++ str ".mp3" ++ str "\n" := by
    have h1 : str "/files/" = str "/" ++ str "files" ++ str "/" := by decide
    have h2 : str "\n" = [10] := by decide
    rw [h1, h2]; simp [artifactURL]
  rw [handleMp3_post sortSlice cfg fs r env hpost hread]
  simp only [hbody, hvalid, hid, if_false, Bool.true_eq_false]
  split
  · exact ⟨rfl, hurl⟩
  · simp only [hfetch]
    exact ⟨trivial, hurl⟩

/-- C9. The response does depend on the oldest-file lookup: with `old.mp3` in
the store, `dirSizeMaxMB = 10` and a fetch of 7 MB that succeeds, the eviction
pass sorts two files; when the `os.Stat` of `getFileModTime` fails there (its
error is dropped and the nil result dereferenced), the handler panics after
it has written the response, and the client receives nothing, where it
receives status 200 and the artifact URL when the lookup succeeds. -/
theorem handleMp3_panic_loses_response :
    (handleMp3 insertionSortLess cfg10 [fileIn "old.mp3" 20 1] (postShort "abc123")
        { fetch := FetchOutcome.ok (mib 7) 3, modTimeStatErr := true }).status = 200 ∧
      (handleMp3 insertionSortLess cfg10 [fileIn "old.mp3" 20 1] (postShort "abc123")
        { fetch := FetchOutcome.ok (mib 7) 3, modTimeStatErr := true }).panicked = true ∧
      (handleMp3 insertionSortLess cfg10 [fileIn "old.mp3" 20 1] (postShort "abc123")
        { fetch := FetchOutcome.ok (mib 7) 3, modTimeStatErr := true }).delivered = none ∧
      (handleMp3 insertionSortLess cfg10 [fileIn "old.mp3" 20 1] (postShort "abc123")
        { fetch := FetchOutcome.ok (mib 7) 3 }).delivered =
        some (200, str "example.org/files/abc123.mp3\n") := by
  decide
/-! ## The file system and the eviction pass -/

theorem foldl_size (l : List FileInfo) (a : Nat) :
    l.foldl (fun acc e => acc + e.size) a = a + (l.map (·.size)).sum := by
  induction l generalizing a with
  | nil => simp
  | cons e t ih => simp [ih, Nat.add_assoc]

/-- The total of `getTotalSize` as a sum over the file system. -/
theorem dirSize_eq (fs : FS) (root : GoString) :
    dirSize fs root =
      ((fs.filter (fun e => !e.isDir && isUnder (Clean root) e.path)).map (·.size)).sum := by
  unfold dirSize walk
  rw [foldl_size, List.filter_filter]
  simp

theorem sum_filter_filter_le (p q : FileInfo → Bool) (l : List FileInfo) :
    (((l.filter q).filter p).map (·.size)).sum ≤ ((l.filter p).map (·.size)).sum := by
  induction l with
  | nil => simp
  | cons e t ih =>
    rw [List.filter_filter] at ih ⊢
    by_cases hq : q e = true <;> by_cases hp : p e = true <;>
      simp only [List.filter_cons, hq, hp, Bool.and_self, Bool.and_true, Bool.and_false,
        Bool.false_and, Bool.true_and, if_true, if_false, Bool.false_eq_true,
        List.map_cons, List.sum_cons] <;> omega

theorem dirSize_removeFile_le (fs : FS) (root : GoString) (p : CleanPath) :
    dirSize (removeFile fs p) root ≤ dirSize fs root := by
  rw [dirSize_eq, dirSize_eq]
  exact sum_filter_filter_le _ _ fs

theorem insertWalk_perm (e : FileInfo) (l : FS) : (insertWalk e l).Perm (e :: l) := by
  induction l with
  | nil => exact List.Perm.refl _
  | cons x xs ih =>
    unfold insertWalk
    split
    · exact List.Perm.refl _
    · exact (List.Perm.cons x ih).trans (List.Perm.swap e x xs)

/-- Writing a file: the entry at the path goes, the new entry comes. -/
theorem writeFile_perm (fs : FS) (p : CleanPath) (size : Nat) (modTime : Int) :
    (writeFile fs p size modTime).Perm
      ({ path := p, isDir := false, size := size, modTime := modTime } ::
        fs.filter (fun e => e.path ≠ p)) :=
  insertWalk_perm _ _

theorem dirSize_perm (l₁ l₂ : FS) (root : GoString) (h : l₁.Perm l₂) :
    dirSize l₁ root = dirSize l₂ root := by
  rw [dirSize_eq, dirSize_eq]
  exact ((h.filter _).map _).sum_eq

theorem dirSize_writeFile_le (fs : FS) (root : GoString) (p : CleanPath) (size : Nat)
    (modTime : Int) : dirSize (writeFile fs p size modTime) root ≤ dirSize fs root + size := by
  have h := sum_filter_filter_le (fun e => !e.isDir && isUnder (Clean root) e.path)
    (fun e => e.path ≠ p) fs
  rw [dirSize_perm _ _ root (writeFile_perm fs p size modTime), dirSize_eq, dirSize_eq]
  by_cases hu : isUnder (Clean root) p = true
  · simp [List.filter_cons, hu] at h ⊢; omega
  · simp [List.filter_cons, hu] at h ⊢; omega

theorem removeFile_of_stat_none (fs : FS) (p : CleanPath) (h : stat fs p = none) :
    removeFile fs p = fs := by
  unfold stat at h
  rw [List.find?_eq_none] at h
  unfold removeFile
  rw [List.filter_eq_self]
  intro e he
  simpa using h e he

theorem dirSize_writeFile_ge (fs : FS) (root : GoString) (p : CleanPath) (size : Nat)
    (modTime : Int) (h : stat fs p = none) :
    dirSize fs root ≤ dirSize (writeFile fs p size modTime) root := by
  have hfs : fs.filter (fun e => e.path ≠ p) = fs := removeFile_of_stat_none fs p h
  rw [dirSize_perm _ _ root (writeFile_perm fs p size modTime), hfs, dirSize_eq, dirSize_eq]
  by_cases hu : isUnder (Clean root) p = true
  · simp [List.filter_cons, hu]
  · simp [List.filter_cons, hu]

theorem stat_none_of_not_mem (fs : FS) (p : CleanPath) (h : p ∉ fs.map (·.path)) :
    stat fs p = none := by
  unfold stat
  rw [List.find?_eq_none]
  intro e he
  simp only [decide_eq_true_eq]
  intro hp
  exact h (List.mem_map.2 ⟨e, he, hp⟩)

/-- In a file system with one entry per path, `os.Remove` of a path that is
there takes away exactly one entry. -/
theorem removeFile_length (fs : FS) (p : CleanPath) (hn : PathsNodup fs)
    (hp : p ∈ fs.map (·.path)) : (removeFile fs p).length + 1 = fs.length := by
  induction fs with
  | nil => simp at hp
  | cons e t ih =>
    unfold PathsNodup at hn
    rw [List.map_cons, List.nodup_cons] at hn
    by_cases he : e.path = p
    · have ht : removeFile t p = t :=
        removeFile_of_stat_none t p (stat_none_of_not_mem t p (he ▸ hn.1))
      have : removeFile (e :: t) p = removeFile t p := by
        simp [removeFile, List.filter_cons, he]
      rw [this, ht]; rfl
    · have hpt : p ∈ t.map (·.path) := by
        rw [List.map_cons, List.mem_cons] at hp
        rcases hp with h | h
        · exact absurd h.symm he
        · exact h
      have : removeFile (e :: t) p = e :: removeFile t p := by
        simp [removeFile, List.filter_cons, he]
      rw [this, List.length_cons, List.length_cons, ih hn.2 hpt]

theorem removeFile_length_ge (fs : FS) (p : CleanPath) (hn : PathsNodup fs) :
    fs.length ≤ (removeFile fs p).length + 1 := by
  by_cases hp : p ∈ fs.map (·.path)
  · rw [removeFile_length fs p hn hp]
  · rw [removeFile_of_stat_none fs p (stat_none_of_not_mem fs p hp)]; omega

theorem writeFile_nodup (fs : FS) (p : CleanPath) (size : Nat) (modTime : Int)
    (hn : PathsNodup fs) : PathsNodup (writeFile fs p size modTime) := by
  unfold PathsNodup at *
  rw [((writeFile_perm fs p size modTime).map _).nodup_iff, List.map_cons, List.nodup_cons]
  refine ⟨?_, (List.filter_sublist fs).map _ |>.nodup hn⟩
  intro ha
  obtain ⟨e, he, hea⟩ := List.mem_map.1 ha
  have := (List.mem_filter.1 he).2
  simp at this
  exact this hea

theorem stat_isSome_iff (fs : FS) (p : CleanPath) :
    (stat fs p).isSome = true ↔ p ∈ fs.map (·.path) := by
  unfold stat
  rw [List.find?_isSome]
  constructor
  · rintro ⟨e, he, hp⟩
    exact List.mem_map.2 ⟨e, he, by simpa using hp⟩
  · intro h
    obtain ⟨e, he, hp⟩ := List.mem_map.1 h
    exact ⟨e, he, by simpa using hp⟩

/-- The file that the downloader wrote is there. -/
theorem stat_writeFile (fs : FS) (p : CleanPath) (size : Nat) (modTime : Int) :
    (stat (writeFile fs p size modTime) p).isSome = true := by
  rw [stat_isSome_iff]
  exact ((writeFile_perm fs p size modTime).map _).mem_iff.2 (by simp)

/-- The removal of another path leaves the file. -/
theorem stat_removeFile (fs : FS) (p victim : CleanPath) (hne : victim ≠ p)
    (h : (stat fs p).isSome = true) : (stat (removeFile fs victim) p).isSome = true := by
  rw [stat_isSome_iff] at h ⊢
  obtain ⟨e, he, hp⟩ := List.mem_map.1 h
  refine List.mem_map.2 ⟨e, List.mem_filter.2 ⟨he, ?_⟩, hp⟩
  simp only [ne_eq, decide_not, Bool.not_eq_true', decide_eq_false_iff_not]
  rw [hp]
  exact fun h' => hne h'.symm

theorem mp3Files_subset (fs : FS) (root : GoString) :
    ∀ p ∈ mp3Files fs root, p ∈ fs.map (·.path) := by
  intro p hp
  unfold mp3Files walk at hp
  obtain ⟨e, he, hep⟩ := List.mem_map.1 hp
  exact List.mem_map.2 ⟨e, (List.mem_filter.1 (List.mem_filter.1 he).1).1, hep⟩

/-- What the contract of `sort.Slice` gives for `getOldestMP3File` when the
walk and the `os.Stat` of `getFileModTime` do not fail: an error when there is
no `.mp3` file, else a file of least modification time. -/
theorem getOldestMP3File_spec (sortSlice : SortSlice) (hsort : SortSliceContract sortSlice)
    (env : Env) (fs : FS) (root : GoString) (hold : env.oldestWalkErr = false)
    (hmod : env.modTimeStatErr = false) :
    (mp3Files fs root = [] → getOldestMP3File sortSlice env fs root = Oldest.error) ∧
      (mp3Files fs root ≠ [] → ∃ v, getOldestMP3File sortSlice env fs root = Oldest.found v ∧
        v ∈ mp3Files fs root ∧
        ∃ t, getFileModTime env fs v = some t ∧
          ∀ q ∈ mp3Files fs root, ∃ tq, getFileModTime env fs q = some tq ∧ t ≤ tq) := by
  have hsome : ∀ p ∈ mp3Files fs root,
      getFileModTime env fs p = some ((getFileModTime env fs p).getD 0) := by
    intro p hp
    have h := (stat_isSome_iff fs p).2 (mp3Files_subset fs root p hp)
    unfold getFileModTime
    rw [hmod]
    obtain ⟨e, he⟩ := Option.isSome_iff_exists.1 h
    simp [he]
  have hany : (mp3Files fs root).any (fun p => (getFileModTime env fs p).isNone) = false := by
    rw [List.any_eq_false]
    intro p hp
    rw [hsome p hp]
    simp
  obtain ⟨hperm, hsorted⟩ := hsort (fun p => (getFileModTime env fs p).getD 0) (mp3Files fs root)
  unfold getOldestMP3File
  rw [hold, hany]
  simp only [Bool.false_eq_true, if_false, Bool.and_false]
  cases hs : sortSlice
      (fun a b => decide ((getFileModTime env fs a).getD 0 < (getFileModTime env fs b).getD 0))
      (mp3Files fs root) with
  | nil =>
    rw [hs] at hperm
    have hnil : mp3Files fs root = [] := List.Perm.eq_nil hperm.symm
    exact ⟨fun _ => rfl, fun h => absurd hnil h⟩
  | cons v t =>
    rw [hs] at hperm hsorted
    have hv : v ∈ mp3Files fs root := hperm.subset (List.mem_cons_self v t)
    refine ⟨fun h => ?_, fun _ => ⟨v, rfl, hv, _, hsome v hv, ?_⟩⟩
    · rw [h] at hperm
      exact absurd (List.Perm.eq_nil hperm) (by simp)
    · intro q hq
      refine ⟨_, hsome q hq, ?_⟩
      rcases List.mem_cons.1 (hperm.symm.subset hq) with h | h
      · rw [h]
      · exact (List.pairwise_cons.1 hsorted).1 q h

/-- The file system after the eviction pass: unchanged, or one path removed by
a call of `os.Remove` that did not fail. -/
theorem evictionPass_fs (sortSlice : SortSlice) (cfg : Config) (env : Env) (fs : FS) :
    (evictionPass sortSlice cfg env fs).1 = fs ∨
      ∃ victim, getOldestMP3File sortSlice env fs cfg.filesDir = Oldest.found victim ∧
        env.removeErr = false ∧
        Event.remove victim ∈ (evictionPass sortSlice cfg env fs).2.1 ∧
        (evictionPass sortSlice cfg env fs).1 = removeFile fs victim := by
  unfold evictionPass
  split
  · exact Or.inl rfl
  · split
    · split
      · exact Or.inl rfl
      · exact Or.inl rfl
      · rename_i victim hv
        cases hr : env.removeErr with
        | true => exact Or.inl rfl
        | false => exact Or.inr ⟨victim, hv, rfl, by simp, rfl⟩
    · exact Or.inl rfl
/-! ## The insertion sort meets the contract of `sort.Slice` -/

theorem insertBack_perm (less : CleanPath → CleanPath → Bool) (x : CleanPath)
    (acc : List CleanPath) : (insertBack less x acc).Perm (x :: acc) := by
  induction acc with
  | nil => exact List.Perm.refl _
  | cons p ps ih =>
    unfold insertBack
    split
    · exact (List.Perm.cons p ih).trans (List.Perm.swap x p ps)
    · exact List.Perm.refl _

theorem insertBack_sorted (key : CleanPath → Int) (x : CleanPath) (acc : List CleanPath)
    (h : acc.Pairwise (fun a b => key b ≤ key a)) :
    (insertBack (fun a b => decide (key a < key b)) x acc).Pairwise
      (fun a b => key b ≤ key a) := by
  induction acc with
  | nil => simp [insertBack]
  | cons p ps ih =>
    obtain ⟨hp, hps⟩ := List.pairwise_cons.1 h
    unfold insertBack
    split
    · rename_i hlt
      have hlt' : key x < key p := by simpa using hlt
      refine List.pairwise_cons.2 ⟨?_, ih hps⟩
      intro y hy
      rcases List.mem_cons.1 ((insertBack_perm _ x ps).subset hy) with hy' | hy'
      · rw [hy']; omega
      · exact hp y hy'
    · rename_i hlt
      have hge : key p ≤ key x := by
        have : ¬ key x < key p := by simpa using hlt
        omega
      refine List.pairwise_cons.2 ⟨?_, h⟩
      intro y hy
      rcases List.mem_cons.1 hy with hy' | hy'
      · rw [hy']; exact hge
      · have := hp y hy'; omega

theorem foldl_insertBack (key : CleanPath → Int) (l acc : List CleanPath)
    (h : acc.Pairwise (fun a b => key b ≤ key a)) :
    (l.foldl (fun acc x => insertBack (fun a b => decide (key a < key b)) x acc) acc).Perm
        (l ++ acc) ∧
      (l.foldl (fun acc x => insertBack (fun a b => decide (key a < key b)) x acc)
        acc).Pairwise (fun a b => key b ≤ key a) := by
  induction l generalizing acc with
  | nil => exact ⟨List.Perm.refl _, h⟩
  | cons x t ih =>
    obtain ⟨hperm, hsorted⟩ := ih (insertBack (fun a b => decide (key a < key b)) x acc)
      (insertBack_sorted key x acc h)
    refine ⟨?_, hsorted⟩
    rw [List.foldl_cons]
    refine hperm.trans ?_
    refine ((List.Perm.append_left t (insertBack_perm _ x acc)).trans ?_)
    exact List.perm_middle

theorem insertionSortLess_contract : SortSliceContract insertionSortLess := by
  intro key l
  obtain ⟨hperm, hsorted⟩ := foldl_insertBack key l [] List.Pairwise.nil
  unfold insertionSortLess
  refine ⟨(List.reverse_perm _).trans (by simpa using hperm), ?_⟩
  rw [List.pairwise_reverse]
  exact hsorted

/-! ## The eviction pass -/

/-- C4. The eviction pass deletes no file when the total size is at most
`limitBytes` (equality included); in every case it deletes at most one path,
so that in a file system with one entry per path at most one entry goes; and
every entry at another path is still there, unchanged. -/
theorem evictionPass_frame (sortSlice : SortSlice) (cfg : Config) (env : Env) (fs : FS) :
    ((dirSize fs cfg.filesDir : Int) ≤ cfg.limitBytes →
        (evictionPass sortSlice cfg env fs).1 = fs) ∧
      (∃ deleted : List CleanPath, deleted.length ≤ 1 ∧
        (evictionPass sortSlice cfg env fs).1 = fs.filter (fun e => e.path ∉ deleted) ∧
        ∀ e ∈ fs, e.path ∉ deleted → e ∈ (evictionPass sortSlice cfg env fs).1) ∧
      (PathsNodup fs → fs.length ≤ (evictionPass sortSlice cfg env fs).1.length + 1) := by
  refine ⟨?_, ?_, ?_⟩
  · intro hle
    unfold evictionPass getTotalSize
    split
    · rfl
    · rename_i totalSize ht
      split at ht
      · simp at ht
      · simp only [Option.some.injEq] at ht
        rw [← ht, if_neg (by omega)]
  · rcases evictionPass_fs sortSlice cfg env fs with h | ⟨victim, _, _, _, h⟩
    · refine ⟨[], by simp, ?_, ?_⟩
      · rw [h]; simp
      · intro e he _; rw [h]; exact he
    · refine ⟨[victim], by simp, ?_, ?_⟩
      · rw [h]; simp [removeFile]
      · intro e he hne
        rw [h]
        exact List.mem_filter.2 ⟨he, by simpa using hne⟩
  · intro hn
    rcases evictionPass_fs sortSlice cfg env fs with h | ⟨victim, _, _, _, h⟩
    · rw [h]; omega
    · rw [h]; exact removeFile_length_ge fs victim hn


theorem evictionPass_dirSize_le (sortSlice : SortSlice) (cfg : Config) (env : Env) (fs : FS)
    (root : GoString) :
    dirSize (evictionPass sortSlice cfg env fs).1 root ≤ dirSize fs root := by
  rcases evictionPass_fs sortSlice cfg env fs with h | ⟨victim, _, _, _, h⟩
  · rw [h]
  · rw [h]; exact dirSize_removeFile_le fs root victim

/-- The eviction pass on a file system over the budget, when the size walk
and `os.Remove` do not fail: the oldest file is removed, if one is found. -/
theorem evictionPass_over (sortSlice : SortSlice) (cfg : Config) (env : Env) (fs : FS)
    (hsize : env.sizeWalkErr = false) (hrem : env.removeErr = false)
    (hover : (dirSize fs cfg.filesDir : Int) > cfg.limitBytes) :
    (evictionPass sortSlice cfg env fs).1 =
      match getOldestMP3File sortSlice env fs cfg.filesDir with
      | Oldest.found victim => removeFile fs victim
      | _ => fs := by
  unfold evictionPass getTotalSize
  rw [hsize]
  simp only [Bool.false_eq_true, if_false, if_pos hover, hrem]
  cases getOldestMP3File sortSlice env fs cfg.filesDir <;> rfl

/-- C2, as the claim states it, fails: a request whose fetch fails returns
before the eviction pass, so nothing is removed although the store is over
`limitBytes`. -/
theorem handleMp3_failed_fetch_removes_nothing :
    (dirSize [fileIn "a.mp3" 20 1] cfg10.filesDir : Int) > cfg10.limitBytes ∧
      (handleMp3 insertionSortLess cfg10 [fileIn "a.mp3" 20 1] (postShort "abc")
          { fetch := FetchOutcome.failed none }).trace =
        [Event.exec (str "https://youtu.be/abc") (Clean (str "/srv/mp3/abc.mp3"))] ∧
      (handleMp3 insertionSortLess cfg10 [fileIn "a.mp3" 20 1] (postShort "abc")
          { fetch := FetchOutcome.failed none }).fs = [fileIn "a.mp3" 20 1] := by
  decide

/-- C2 (amended). For every file system with one entry per path and every POST
with a recognized URL whose file is not there and whose fetch succeeds: if the
total size before the fetch is greater than `limitBytes` and no call of the
eviction pass fails (the size walk, the walk and the `os.Stat` calls of the
oldest-file lookup, `os.Remove`), then, when there is no `.mp3` file below
`filesDir` after the fetch, nothing is removed, and otherwise exactly one
entry is removed, at a path of `mp3Files` whose modification time is least
among them, and every other entry stays. -/
theorem handleMp3_evicts_oldest (sortSlice : SortSlice) (hsort : SortSliceContract sortSlice)
    (cfg : Config) (fs : FS) (r : Request) (env : Env) (size : Nat) (modTime : Int)
    (hnodup : PathsNodup fs)
    (hpost : r.method = str "POST") (hread : env.readErr = none)
    (hvalid : isValidURL r.body = true) (hid : getVideoID r.body ≠ [])
    (hmiss : stat fs (outfile cfg r) = none)
    (hfetch : env.fetch = FetchOutcome.ok size modTime)
    (hsize : env.sizeWalkErr = false) (hold : env.oldestWalkErr = false)
    (hmod : env.modTimeStatErr = false) (hrem : env.removeErr = false)
    (hover : (dirSize fs cfg.filesDir : Int) > cfg.limitBytes) :
    (mp3Files (fetched cfg fs r size modTime) cfg.filesDir = [] →
        (handleMp3 sortSlice cfg fs r env).fs = fetched cfg fs r size modTime) ∧
      (mp3Files (fetched cfg fs r size modTime) cfg.filesDir ≠ [] →
        ∃ victim ∈ mp3Files (fetched cfg fs r size modTime) cfg.filesDir,
          (∃ t, getFileModTime env (fetched cfg fs r size modTime) victim = some t ∧
            ∀ q ∈ mp3Files (fetched cfg fs r size modTime) cfg.filesDir,
              ∃ tq, getFileModTime env (fetched cfg fs r size modTime) q = some tq ∧
                t ≤ tq) ∧
          (handleMp3 sortSlice cfg fs r env).fs =
            removeFile (fetched cfg fs r size modTime) victim ∧
          (handleMp3 sortSlice cfg fs r env).fs.length + 1 =
            (fetched cfg fs r size modTime).length ∧
          ∀ e ∈ fetched cfg fs r size modTime,
            e.path ≠ victim → e ∈ (handleMp3 sortSlice cfg fs r env).fs) := by
  unfold fetched outfile at *
  generalize hout : Join [cfg.filesDir, getVideoID r.body ++ str ".mp3"] = outfile at *
  generalize hfs1 : writeFile fs outfile size modTime = fs1
  have hbody : r.body ≠ [] := by
    intro h; rw [h, isValidURL_nil] at hvalid; exact absurd hvalid (by decide)
  have hexists : fileAlreadyExists cfg env fs (getVideoID r.body) = false := by
    unfold fileAlreadyExists
    rw [hout, hmiss]
    cases env.statErr <;> rfl
  have hover1 : (dirSize fs1 cfg.filesDir : Int) > cfg.limitBytes := by
    have := dirSize_writeFile_ge fs cfg.filesDir outfile size modTime hmiss
    rw [hfs1] at this
    omega
  have hnodup1 : PathsNodup fs1 := hfs1 ▸ writeFile_nodup fs outfile size modTime hnodup
  have hres : (handleMp3 sortSlice cfg fs r env).fs =
      match getOldestMP3File sortSlice env fs1 cfg.filesDir with
      | Oldest.found victim => removeFile fs1 victim
      | _ => fs1 := by
    rw [handleMp3_post sortSlice cfg fs r env hpost hread]
    simp only [hbody, hvalid, hid, hexists, hfetch, hout, hfs1, if_false, Bool.true_eq_false,
      Bool.false_eq_true]
    exact evictionPass_over sortSlice cfg env fs1 hsize hrem hover1
  obtain ⟨hnone, hsome⟩ :=
    getOldestMP3File_spec sortSlice hsort env fs1 cfg.filesDir hold hmod
  refine ⟨fun hnil => ?_, fun hne => ?_⟩
  · rw [hres, hnone hnil]
  · obtain ⟨v, hv, hmem, hmin⟩ := hsome hne
    rw [hres, hv]
    refine ⟨v, hmem, hmin, rfl, ?_, ?_⟩
    · exact removeFile_length fs1 v hnodup1 (mp3Files_subset fs1 cfg.filesDir v hmem)
    · intro e he hne'
      exact List.mem_filter.2 ⟨he, by simpa using hne'⟩

theorem handleMp3_evicts_oldest_witness :
    SortSliceContract insertionSortLess ∧
      PathsNodup [fileIn "a.mp3" 20 1, fileIn "b.mp3" 5 2] ∧
      (dirSize [fileIn "a.mp3" 20 1, fileIn "b.mp3" 5 2] cfg10.filesDir : Int) >
        cfg10.limitBytes ∧
      mp3Files (fetched cfg10 [fileIn "a.mp3" 20 1, fileIn "b.mp3" 5 2] (postShort "abc") (mib 7) 3)
        cfg10.filesDir ≠ [] ∧
      ∃ victim ∈ mp3Files
          (fetched cfg10 [fileIn "a.mp3" 20 1, fileIn "b.mp3" 5 2] (postShort "abc") (mib 7) 3)
          cfg10.filesDir,
        (handleMp3 insertionSortLess cfg10 [fileIn "a.mp3" 20 1, fileIn "b.mp3" 5 2]
            (postShort "abc") { fetch := FetchOutcome.ok (mib 7) 3 }).fs =
          removeFile
            (fetched cfg10 [fileIn "a.mp3" 20 1, fileIn "b.mp3" 5 2] (postShort "abc") (mib 7) 3)
            victim :=
  ⟨insertionSortLess_contract, by decide, by decide, by decide,
    let ⟨v, hv, _, h, _⟩ :=
      (handleMp3_evicts_oldest insertionSortLess insertionSortLess_contract cfg10
        [fileIn "a.mp3" 20 1, fileIn "b.mp3" 5 2] (postShort "abc")
        { fetch := FetchOutcome.ok (mib 7) 3 } (mib 7) 3
        (by decide) (by decide) (by decide) (by decide) (by decide) (by decide) rfl
        (by decide) (by decide) (by decide) (by decide) (by decide)).2 (by decide)
    ⟨v, hv, h⟩⟩

theorem evictionPass_frame_witness :
    (dirSize [fileIn "a.mp3" 5 1, fileIn "b.mp3" 5 2] cfg10.filesDir : Int) ≤ cfg10.limitBytes ∧
      (evictionPass insertionSortLess cfg10 {} [fileIn "a.mp3" 5 1, fileIn "b.mp3" 5 2]).1 =
        [fileIn "a.mp3" 5 1, fileIn "b.mp3" 5 2] :=
  ⟨by decide,
    (evictionPass_frame insertionSortLess cfg10 {}
      [fileIn "a.mp3" 5 1, fileIn "b.mp3" 5 2]).1 (by decide)⟩

/-! ## The budget over a sequence of requests -/

/-- One request adds at most what its fetch wrote. -/
theorem handleMp3_dirSize_le (sortSlice : SortSlice) (cfg : Config) (fs : FS) (r : Request)
    (env : Env) (root : GoString) :
    dirSize (handleMp3 sortSlice cfg fs r env).fs root ≤
      dirSize fs root + env.fetch.written := by
  by_cases hopt : r.method = str "OPTIONS"
  · simp [handleMp3, hopt]
  · by_cases hpost : r.method = str "POST"
    · cases hread : env.readErr with
      | some err =>
        have hne : str "POST" ≠ str "OPTIONS" := by decide
        simp [handleMp3, hpost, hne, hread, httpError]
      | none =>
        rw [handleMp3_post sortSlice cfg fs r env hpost hread]
        split
        · simp [httpError]
        · split
          · simp [httpError]
          · split
            · simp [httpError]
            · split
              · simp
              · cases hf : env.fetch with
                | ok size modTime =>
                  simp only [FetchOutcome.written]
                  exact (evictionPass_dirSize_le sortSlice cfg env _ root).trans
                    (dirSize_writeFile_le fs root _ size modTime)
                | failed leftover =>
                  cases leftover with
                  | none => simp [httpError]
                  | some sm =>
                    obtain ⟨size, modTime⟩ := sm
                    simp only [httpError, FetchOutcome.written]
                    exact dirSize_writeFile_le fs root _ size modTime
    · simp [handleMp3, hopt, hpost, httpError]

/-- C3, as the claim states it, fails: two requests that each add a file of
100 MB and each evict a file of 5 MB leave a store of 200 MB, over the budget
of 10 MB by more than the largest file in it. -/
theorem storeAfter_exceeds_one_artifact :
    (dirSize [fileIn "a.mp3" 5 1, fileIn "b.mp3" 5 2] cfg10.filesDir : Int) ≤ cfg10.limitBytes ∧
      storeAfter insertionSortLess cfg10 [fileIn "a.mp3" 5 1, fileIn "b.mp3" 5 2]
          [(postShort "ccc", { fetch := FetchOutcome.ok (mib 100) 3 }),
           (postShort "ddd", { fetch := FetchOutcome.ok (mib 100) 4 })] =
        [fileIn "ccc.mp3" 100 3, fileIn "ddd.mp3" 100 4] ∧
      dirSize [fileIn "ccc.mp3" 100 3, fileIn "ddd.mp3" 100 4] cfg10.filesDir = mib 200 ∧
      (∀ e ∈ [fileIn "ccc.mp3" 100 3, fileIn "ddd.mp3" 100 4], e.size ≤ mib 100) ∧
      ¬ ((dirSize (storeAfter insertionSortLess cfg10 [fileIn "a.mp3" 5 1, fileIn "b.mp3" 5 2]
          [(postShort "ccc", { fetch := FetchOutcome.ok (mib 100) 3 }),
           (postShort "ddd", { fetch := FetchOutcome.ok (mib 100) 4 })]) cfg10.filesDir : Int) ≤
        cfg10.limitBytes + (mib 100 : Nat)) := by
  decide

/-- C3 (amended). Starting from a store whose total size is at most
`limitBytes`, after every sequence of requests the total size exceeds
`limitBytes` by at most the sum of the sizes of the files that the fetches of
the sequence wrote; for one request, by at most the size of the one file it
added. -/
theorem storeAfter_size_bound (sortSlice : SortSlice) (cfg : Config) (fs : FS)
    (reqs : List (Request × Env))
    (hwithin : (dirSize fs cfg.filesDir : Int) ≤ cfg.limitBytes) :
    (dirSize (storeAfter sortSlice cfg fs reqs) cfg.filesDir : Int) ≤
      cfg.limitBytes + ((reqs.map (fun re => re.2.fetch.written)).sum : Nat) := by
  have key : ∀ (reqs : List (Request × Env)) (fs : FS),
      dirSize (storeAfter sortSlice cfg fs reqs) cfg.filesDir ≤
        dirSize fs cfg.filesDir + (reqs.map (fun re => re.2.fetch.written)).sum := by
    intro reqs
    induction reqs with
    | nil => intro fs; simp [storeAfter]
    | cons re rest ih =>
      intro fs
      obtain ⟨r, env⟩ := re
      have h1 := ih (handleMp3 sortSlice cfg fs r env).fs
      have h2 := handleMp3_dirSize_le sortSlice cfg fs r env cfg.filesDir
      simp only [storeAfter, List.map_cons, List.sum_cons]
      omega
  have := key reqs fs
  omega

theorem storeAfter_size_bound_witness :
    (dirSize [fileIn "a.mp3" 5 1, fileIn "b.mp3" 5 2] cfg10.filesDir : Int) ≤ cfg10.limitBytes ∧
      (dirSize (storeAfter insertionSortLess cfg10 [fileIn "a.mp3" 5 1, fileIn "b.mp3" 5 2]
          [(postShort "ccc", { fetch := FetchOutcome.ok (mib 100) 3 })]) cfg10.filesDir : Int) ≤
        cfg10.limitBytes +
          (([(postShort "ccc", ({ fetch := FetchOutcome.ok (mib 100) 3 } : Env))].map
            (fun re => re.2.fetch.written)).sum : Nat) :=
  ⟨by decide,
    storeAfter_size_bound insertionSortLess cfg10 [fileIn "a.mp3" 5 1, fileIn "b.mp3" 5 2]
      [(postShort "ccc", { fetch := FetchOutcome.ok (mib 100) 3 })] (by decide)⟩

/-! ## Idempotence -/

/-- A POST answered 200: the body was read, the URL is recognized and the
response is the artifact URL. -/
theorem handleMp3_status_200 (sortSlice : SortSlice) (cfg : Config) (fs : FS) (r : Request)
    (env : Env) (hpost : r.method = str "POST")
    (h200 : (handleMp3 sortSlice cfg fs r env).status = 200) :
    r.body ≠ [] ∧ isValidURL r.body = true ∧ getVideoID r.body ≠ [] ∧
      (handleMp3 sortSlice cfg fs r env).body = artifactURL r.host (getVideoID r.body) := by
  have hne : str "POST" ≠ str "OPTIONS" := by decide
  cases hread : env.readErr with
  | some err =>
    simp [handleMp3, hpost, hne, hread, httpError] at h200
  | none =>
    rw [handleMp3_post sortSlice cfg fs r env hpost hread] at h200 ⊢
    by_cases h1 : r.body = []
    · simp [h1, httpError] at h200
    · by_cases h2 : isValidURL r.body = false
      · simp [h1, h2, httpError] at h200
      · by_cases h3 : getVideoID r.body = []
        · simp [h1, h2, h3, httpError] at h200
        · have hv : isValidURL r.body = true := by simpa using h2
          refine ⟨h1, hv, h3, ?_⟩
          simp only [h1, hv, h3, if_false, Bool.true_eq_false] at h200 ⊢
          split
          · rfl
          · rename_i hex
            simp only [hex, if_false, Bool.false_eq_true] at h200
            cases hf : env.fetch with
            | ok size modTime => rfl
            | failed leftover => rw [hf] at h200; simp [httpError] at h200

/-- C1, as the claim states it, fails: when the file fetched by the first
request is larger than the budget, the eviction pass of that request deletes
it, and the second request runs the downloader again (here it fails, and the
response is 500). -/
theorem handleMp3_second_request_fetches_again :
    (handleMp3 insertionSortLess cfg10 [] (postShort "abc")
        { fetch := FetchOutcome.ok (mib 20) 0 }).status = 200 ∧
      Event.exec (str "https://youtu.be/abc") (Clean (str "/srv/mp3/abc.mp3")) ∈
        (handleMp3 insertionSortLess cfg10 [] (postShort "abc")
          { fetch := FetchOutcome.ok (mib 20) 0 }).trace ∧
      (handleMp3 insertionSortLess cfg10
          (handleMp3 insertionSortLess cfg10 [] (postShort "abc")
            { fetch := FetchOutcome.ok (mib 20) 0 }).fs
          (postShort "abc") { fetch := FetchOutcome.failed none }).status = 500 ∧
      (handleMp3 insertionSortLess cfg10
          (handleMp3 insertionSortLess cfg10 [] (postShort "abc")
            { fetch := FetchOutcome.ok (mib 20) 0 }).fs
          (postShort "abc") { fetch := FetchOutcome.failed none }).trace =
        [Event.exec (str "https://youtu.be/abc") (Clean (str "/srv/mp3/abc.mp3"))] := by
  decide

/-- After a POST answered 200, the file of the request is in the store,
unless the eviction pass of that request removed it. -/
theorem handleMp3_leaves_file (sortSlice : SortSlice) (cfg : Config) (fs : FS) (r : Request)
    (env : Env) (hpost : r.method = str "POST")
    (h200 : (handleMp3 sortSlice cfg fs r env).status = 200)
    (hown : env.removeErr = true ∨
      Event.remove (outfile cfg r) ∉ (handleMp3 sortSlice cfg fs r env).trace) :
    (stat (handleMp3 sortSlice cfg fs r env).fs (outfile cfg r)).isSome = true := by
  have hne : str "POST" ≠ str "OPTIONS" := by decide
  obtain ⟨h1, hv, h3, _⟩ := handleMp3_status_200 sortSlice cfg fs r env hpost h200
  cases hread : env.readErr with
  | some err => simp [handleMp3, hpost, hne, hread, httpError] at h200
  | none =>
    rw [handleMp3_post sortSlice cfg fs r env hpost hread] at h200 hown ⊢
    simp only [h1, hv, h3, if_false, Bool.true_eq_false] at h200 hown ⊢
    unfold outfile at *
    split
    · rename_i hex
      unfold fileAlreadyExists at hex
      split at hex
      · exact absurd hex (by decide)
      · exact hex
    · rename_i hex
      simp only [hex, if_false, Bool.false_eq_true] at h200 hown
      cases hf : env.fetch with
      | failed leftover => rw [hf] at h200; simp [httpError] at h200
      | ok size modTime =>
        rw [hf] at hown
        simp only [List.mem_cons, not_or] at hown
        have hw := stat_writeFile fs (Join [cfg.filesDir, getVideoID r.body ++ str ".mp3"])
          size modTime
        rcases evictionPass_fs sortSlice cfg env
            (writeFile fs (Join [cfg.filesDir, getVideoID r.body ++ str ".mp3"]) size modTime)
          with h | ⟨victim, _, hrem, hev, h⟩
        · simp only [h]; exact hw
        · simp only [h]
          refine stat_removeFile _ _ victim ?_ hw
          intro hvic
          rcases hown with hown | hown
          · rw [hrem] at hown; exact absurd hown (by decide)
          · exact hown.2 (hvic ▸ hev)

/-- C1 (amended). For every host and URL, if a first POST is answered 200
without a panic and its eviction pass does not remove the file of that same
request (it does not call `os.Remove` on it, or the call fails), and in the
second POST with the same URL and host the body read and `os.Stat` do not
fail, then the second response is 200 with the same body as the first, and
the second request has no effect: no fetch, no eviction pass, the store
unchanged. -/
theorem handleMp3_idempotent (sortSlice : SortSlice) (cfg : Config) (fs : FS) (r : Request)
    (env1 env2 : Env) (hpost : r.method = str "POST")
    (hfirst : (handleMp3 sortSlice cfg fs r env1).delivered.map (·.1) = some 200)
    (hown : env1.removeErr = true ∨
      Event.remove (outfile cfg r) ∉ (handleMp3 sortSlice cfg fs r env1).trace)
    (hread2 : env2.readErr = none) (hstat2 : env2.statErr = false) :
    (handleMp3 sortSlice cfg (handleMp3 sortSlice cfg fs r env1).fs r env2).delivered =
        (handleMp3 sortSlice cfg fs r env1).delivered ∧
      (handleMp3 sortSlice cfg (handleMp3 sortSlice cfg fs r env1).fs r env2).delivered =
        some (200, artifactURL r.host (getVideoID r.body)) ∧
      (handleMp3 sortSlice cfg (handleMp3 sortSlice cfg fs r env1).fs r env2).trace = [] ∧
      (handleMp3 sortSlice cfg (handleMp3 sortSlice cfg fs r env1).fs r env2).fs =
        (handleMp3 sortSlice cfg fs r env1).fs := by
  have hpan : (handleMp3 sortSlice cfg fs r env1).panicked = false := by
    cases hp : (handleMp3 sortSlice cfg fs r env1).panicked with
    | false => rfl
    | true => simp [Result.delivered, hp] at hfirst
  have h200 : (handleMp3 sortSlice cfg fs r env1).status = 200 := by
    simpa [Result.delivered, hpan] using hfirst
  obtain ⟨h1, hv, h3, hbody⟩ := handleMp3_status_200 sortSlice cfg fs r env1 hpost h200
  have hkept := handleMp3_leaves_file sortSlice cfg fs r env1 hpost h200 hown
  have hex : fileAlreadyExists cfg env2 (handleMp3 sortSlice cfg fs r env1).fs
      (getVideoID r.body) = true := by
    unfold fileAlreadyExists
    rw [hstat2]
    exact hkept
  have hd1 : (handleMp3 sortSlice cfg fs r env1).delivered =
      some (200, artifactURL r.host (getVideoID r.body)) := by
    simp [Result.delivered, hpan, h200, hbody]
  rw [hd1, handleMp3_post sortSlice cfg _ r env2 hpost hread2]
  simp only [h1, hv, h3, hex, if_false, if_true, Bool.true_eq_false]
  refine ⟨?_, ?_, ?_, ?_⟩ <;> first | rfl | trivial

theorem handleMp3_idempotent_witness :
    (handleMp3 insertionSortLess cfg10 [fileIn "a.mp3" 8 1] (postShort "abc")
        { fetch := FetchOutcome.ok (mib 7) 3 }).delivered.map (·.1) = some 200 ∧
      Event.remove (outfile cfg10 (postShort "abc")) ∉
        (handleMp3 insertionSortLess cfg10 [fileIn "a.mp3" 8 1] (postShort "abc")
          { fetch := FetchOutcome.ok (mib 7) 3 }).trace ∧
      Event.remove (Clean (str "/srv/mp3/a.mp3")) ∈
        (handleMp3 insertionSortLess cfg10 [fileIn "a.mp3" 8 1] (postShort "abc")
          { fetch := FetchOutcome.ok (mib 7) 3 }).trace ∧
      (handleMp3 insertionSortLess cfg10
          (handleMp3 insertionSortLess cfg10 [fileIn "a.mp3" 8 1] (postShort "abc")
            { fetch := FetchOutcome.ok (mib 7) 3 }).fs
          (postShort "abc") {}).delivered =
        some (200, str "example.org/files/abc.mp3\n") ∧
      (handleMp3 insertionSortLess cfg10
          (handleMp3 insertionSortLess cfg10 [fileIn "a.mp3" 8 1] (postShort "abc")
            { fetch := FetchOutcome.ok (mib 7) 3 }).fs
          (postShort "abc") {}).trace = [] :=
  ⟨by decide, by decide, by decide,
    ((handleMp3_idempotent insertionSortLess cfg10 [fileIn "a.mp3" 8 1] (postShort "abc")
      { fetch := FetchOutcome.ok (mib 7) 3 } {} (by decide) (by decide)
      (Or.inr (by decide)) rfl rfl).2.1).trans (by decide),
    (handleMp3_idempotent insertionSortLess cfg10 [fileIn "a.mp3" 8 1] (postShort "abc")
      { fetch := FetchOutcome.ok (mib 7) 3 } {} (by decide) (by decide)
      (Or.inr (by decide)) rfl rfl).2.2.1⟩
end Gomp3
